import Mathlib

set_option maxHeartbeats 1000000

/-!
Verification development for the storage core of a teaching database:
a clock page replacer, a buffer pool manager, and a persistent
linear-probing hash table (header page + block pages with occupied /
readable bitmaps).

Shallow embedding conventions:
* machine integers become `Nat` / `Int`;
* the byte-packed bitmaps of a block page (`occupied_[i/8] & (1 << i%8)` in
  the source) are modelled by their bit sequences, i.e. functions from the
  slot index to `Bool` (the source's byte/bit indexing implements exactly
  the test / set / clear of bit `i`);
* `BLOCK_ARRAY_SIZE` is an explicit parameter `BAS`;
* keys and values are specialised to `Nat` (the source instantiates
  `<int, int, IntComparator>`; the comparator returns 0 exactly on equal
  keys, so the comparator test is equality), and the hash function is a
  state parameter `hash_fn_`;
* unbounded `while` loops become fuel-indexed recursion returning
  `Except Err _`, where `.error .fuelOut` means the loop has not finished
  within the given fuel (so `∀ fuel, … = .error .fuelOut` is divergence);
* the hash table reaches pages only through the buffer pool; the buffer
  pool is abstracted, for the hash-table operations, into a page store
  (`headers` / `blocks`) plus a flag `pool_ok` saying whether the pool can
  supply a frame.  A fetch or allocation when `pool_ok = false` yields
  `none`, and the table code dereferences that null result without a
  check, which the embedding records as `.error .nullDeref`.  When
  `pool_ok = true` a fetch always succeeds: the real buffer pool reads any
  requested page id from disk, and a page that was never written reads
  back as zeros, hence the `getD` defaults below.
-/

inductive Err where
  | fuelOut
  | nullDeref
deriving DecidableEq, Repr

/-- One hash-table block page: an array of (key, value) slots and the two
bitmaps, bit-indexed (source: `hash_table_block_page.cpp`). -/
structure BlockPage where
  array_ : Nat → Nat × Nat
  occupied_ : Nat → Bool
  readable_ : Nat → Bool

/-- Source `HASH_TABLE_BLOCK_TYPE::KeyAt`. -/
def BlockPage.KeyAt (b : BlockPage) (bucket_ind : Nat) : Nat :=
  (b.array_ bucket_ind).1

/-- Source `HASH_TABLE_BLOCK_TYPE::ValueAt`. -/
def BlockPage.ValueAt (b : BlockPage) (bucket_ind : Nat) : Nat :=
  (b.array_ bucket_ind).2

/-- Source `HASH_TABLE_BLOCK_TYPE::IsOccupied`: test bit `bucket_ind` of
`occupied_`. -/
def BlockPage.IsOccupied (b : BlockPage) (bucket_ind : Nat) : Bool :=
  b.occupied_ bucket_ind

/-- Source `HASH_TABLE_BLOCK_TYPE::IsReadable`: test bit `bucket_ind` of
`readable_`. -/
def BlockPage.IsReadable (b : BlockPage) (bucket_ind : Nat) : Bool :=
  b.readable_ bucket_ind

/-- A freshly zeroed page viewed as a block page: both bitmaps all zero. -/
def zeroBlock : BlockPage :=
  { array_ := fun _ => (0, 0), occupied_ := fun _ => false, readable_ := fun _ => false }

/-- Source `HASH_TABLE_BLOCK_TYPE::Insert`: if slot not readable, write the
pair and set bit `bucket_ind` in both bitmaps, return true; else return
false leaving the page unchanged.  The mutated page is returned alongside
the boolean. -/
def BlockPage.Insert (b : BlockPage) (bucket_ind key value : Nat) : BlockPage × Bool :=
  if !(b.IsReadable bucket_ind) then
    ({ array_ := fun j => if j = bucket_ind then (key, value) else b.array_ j,
       occupied_ := fun j => if j = bucket_ind then true else b.occupied_ j,
       readable_ := fun j => if j = bucket_ind then true else b.readable_ j }, true)
  else (b, false)

/-- Source `HASH_TABLE_BLOCK_TYPE::Remove`: if occupied, clear the
readable bit (the occupied bit persists). -/
def BlockPage.Remove (b : BlockPage) (bucket_ind : Nat) : BlockPage :=
  if b.IsOccupied bucket_ind then
    { b with readable_ := fun j => if j = bucket_ind then false else b.readable_ j }
  else b

/-- Modelled from the spec: the hash table header page
(`hash_table_header_page.cpp` is not part of the given sources; §6 of the
spec gives its layout: own page id, `size` = number of blocks, and the
array of block page ids filled by a bump index). -/
structure HeaderPage where
  page_id_ : Nat
  size_ : Nat
  block_page_ids_ : List Nat
deriving DecidableEq, Repr

/-- Modelled from the spec: `NumBlocks` returns the stored size. -/
def HeaderPage.NumBlocks (h : HeaderPage) : Nat := h.size_

/-- Modelled from the spec: `GetBlockPageId` reads the array of block page
ids at the given index. -/
def HeaderPage.GetBlockPageId (h : HeaderPage) (index : Nat) : Nat :=
  h.block_page_ids_.getD index 0

/-- Modelled from the spec: `AddBlockPageId` appends at the bump index. -/
def HeaderPage.AddBlockPageId (h : HeaderPage) (pid : Nat) : HeaderPage :=
  { h with block_page_ids_ := h.block_page_ids_ ++ [pid] }

/-- State of the hash table together with its abstracted buffer pool: the
current header page id, the page store, the allocator counter of the disk
manager, the pool-availability flag, and the table's hash function. -/
structure HTState where
  header_page_id_ : Nat
  headers : Nat → Option HeaderPage
  blocks : Nat → Option BlockPage
  next_page_id : Nat
  pool_ok : Bool
  hash_fn_ : Nat → Nat

/-- Default content when a page id not in the store is read back from
disk, viewed as a header page (a zeroed page). -/
def zeroHeader : HeaderPage := { page_id_ := 0, size_ := 0, block_page_ids_ := [] }

/-- `FetchPage` of a page interpreted as a header page: null exactly when
the pool cannot supply a frame. -/
def fetchHeaderPage (s : HTState) (pid : Nat) : Option HeaderPage :=
  if s.pool_ok then some ((s.headers pid).getD zeroHeader) else none

/-- `FetchPage` of a page interpreted as a block page: null exactly when
the pool cannot supply a frame. -/
def fetchBlockPage (s : HTState) (pid : Nat) : Option BlockPage :=
  if s.pool_ok then some ((s.blocks pid).getD zeroBlock) else none

/-- Total observer of the header store (used in statements). -/
def headerD (s : HTState) (pid : Nat) : HeaderPage :=
  (s.headers pid).getD zeroHeader

/-- Total observer of the block store (used in statements). -/
def blockD (s : HTState) (pid : Nat) : BlockPage :=
  (s.blocks pid).getD zeroBlock

/-- Write back a header page (the source mutates the pinned frame in
place; the embedding stores the new content). -/
def setHeaderPage (s : HTState) (pid : Nat) (h : HeaderPage) : HTState :=
  { s with headers := fun q => if q = pid then some h else s.headers q }

/-- Write back a block page. -/
def setBlockPage (s : HTState) (pid : Nat) (b : BlockPage) : HTState :=
  { s with blocks := fun q => if q = pid then some b else s.blocks q }

/-- `BufferPoolManager::NewPage` as seen by the hash table: a fresh page
id from the disk manager's allocator, or null when the pool has no
frame. -/
def newPage (s : HTState) : Option (Nat × HTState) :=
  if s.pool_ok then some (s.next_page_id, { s with next_page_id := s.next_page_id + 1 })
  else none

/-- `BufferPoolManager::DeletePage` as seen by the hash table: the page
leaves the pool and is deallocated, so a later fetch reads it from disk as
a zeroed page (the table never flushes block pages as dirty). -/
def deletePage (s : HTState) (pid : Nat) : HTState :=
  { s with headers := fun q => if q = pid then none else s.headers q,
           blocks := fun q => if q = pid then none else s.blocks q }

/-- The probe loop of `LinearProbeHashTable::GetValue` (source lines
76-104): walk while the slot is occupied, appending values of readable
slots with equal key; after incrementing the bucket offset, break when
`bucket_index + block_index * BLOCK_ARRAY_SIZE == index`; on reaching
`BLOCK_ARRAY_SIZE`, move to the next block modulo the block count. -/
def getValueLoop (BAS : Nat) (fuel : Nat) (s : HTState) (ht_page : HeaderPage)
    (ht_length index : Nat) (block_index bucket_index : Nat) (bp : BlockPage)
    (key : Nat) (result : List Nat) : Except Err (List Nat) :=
  match fuel with
  | 0 => .error .fuelOut
  | fuel + 1 =>
    if bp.IsOccupied bucket_index then
      let result' :=
        if bp.IsReadable bucket_index && (bp.KeyAt bucket_index == key) then
          result ++ [bp.ValueAt bucket_index]
        else result
      let bucket' := bucket_index + 1
      if bucket' + block_index * BAS == index then .ok result'
      else if bucket' == BAS then
        let block' := (block_index + 1) % ht_length
        match fetchBlockPage s (ht_page.GetBlockPageId block') with
        | none => .error .nullDeref
        | some bp' => getValueLoop BAS fuel s ht_page ht_length index block' 0 bp' key result'
      else getValueLoop BAS fuel s ht_page ht_length index block_index bucket' bp key result'
    else .ok result

/-- Source `LinearProbeHashTable::GetValue`: fetch the header, compute the
start bucket `hash(key) % (BLOCK_ARRAY_SIZE * num_blocks)`, fetch the
first block, run the probe loop, and return `result.size() > 0`.  The
caller-supplied `result` vector is threaded through. -/
def GetValue (BAS : Nat) (fuel : Nat) (s : HTState) (key : Nat) (result : List Nat) :
    Except Err (List Nat × Bool) :=
  match fetchHeaderPage s s.header_page_id_ with
  | none => .error .nullDeref
  | some ht_page =>
    let ht_length := ht_page.NumBlocks
    let index := s.hash_fn_ key % (BAS * ht_length)
    let block_index := index / BAS
    let bucket_index := index % BAS
    match fetchBlockPage s (ht_page.GetBlockPageId block_index) with
    | none => .error .nullDeref
    | some bp =>
      match getValueLoop BAS fuel s ht_page ht_length index block_index bucket_index bp key result with
      | .error e => .error e
      | .ok res => .ok (res, decide (0 < res.length))

/-- The inner per-bucket migration loop of `Resize` (source lines
325-332): for each bucket of the old block, if readable, reinsert the pair
through the table's own Insert.  The block content is re-read from the
evolving state at every bucket because the source reads it through a live
frame pointer, and the reinsertion may mutate that very page (the
insertion targets whatever table `header_page_id_` currently names).
`ins` is the table-level insert at the fuel available at the call site. -/
def migrateBuckets (ins : HTState → Nat → Nat → Except Err (HTState × Bool))
    (bid : Nat) : Nat → Nat → HTState → Except Err HTState
  | 0, _, s => .ok s
  | remaining + 1, bucket_index, s =>
    match fetchBlockPage s bid with
    | none => .error .nullDeref
    | some bp =>
      if bp.IsReadable bucket_index then
        match ins s (bp.KeyAt bucket_index) (bp.ValueAt bucket_index) with
        | .error e => .error e
        | .ok (s', _) => migrateBuckets ins bid remaining (bucket_index + 1) s'
      else migrateBuckets ins bid remaining (bucket_index + 1) s

/-- The outer per-block migration loop of `Resize` (source lines 319-337):
run the bucket loop for each old block, then unpin and delete that old
block page. -/
def migrateBlocks (BAS : Nat) (ins : HTState → Nat → Nat → Except Err (HTState × Bool))
    (old_ht : HeaderPage) : Nat → Nat → HTState → Except Err HTState
  | 0, _, s => .ok s
  | remaining + 1, block_index, s =>
    let bid := old_ht.GetBlockPageId block_index
    match migrateBuckets ins bid BAS 0 s with
    | .error e => .error e
    | .ok s' => migrateBlocks BAS ins old_ht remaining (block_index + 1) (deletePage s' bid)

/-- The block-allocation loop shared by the constructor and `Resize`: for
each of `n` rounds, `NewPage` a zeroed block page and `AddBlockPageId` it
to the header under construction.  The source discards the returned frame
pointer, so a null return is not dereferenced there; it would leave the
out-parameter id unset.  That branch is unreachable in the embedding
because pool availability is a constant of the state, and it is modelled
by appending a garbage id 0. -/
def allocBlockPages : HTState → HeaderPage → Nat → HTState × HeaderPage
  | s, h, 0 => (s, h)
  | s, h, n + 1 =>
    match newPage s with
    | some (bid, s') => allocBlockPages (setBlockPage s' bid zeroBlock) (h.AddBlockPageId bid) n
    | none => allocBlockPages s (h.AddBlockPageId 0) n

mutual

/-- Entry of `LinearProbeHashTable::Insert` (source lines 121-137) and
also the state recomputed after an in-call `Resize` (lines 163-178): fetch
the current header, compute the start bucket, and run the probe loop.
After a resize the source recomputes exactly these values against the new
header and re-enters the same `while` loop, which is the same computation
as restarting the call, so the restart is modelled by re-entering here. -/
def insertGo (BAS : Nat) (fuel : Nat) (s : HTState) (key value : Nat) :
    Except Err (HTState × Bool) :=
  match fuel with
  | 0 => .error .fuelOut
  | fuel + 1 =>
    match fetchHeaderPage s s.header_page_id_ with
    | none => .error .nullDeref
    | some ht_page =>
      let ht_length := ht_page.NumBlocks
      let index := s.hash_fn_ key % (BAS * ht_length)
      insertLoop BAS fuel s ht_page ht_length index (index / BAS) (index % BAS) key value
termination_by structural fuel

/-- The probe loop of `LinearProbeHashTable::Insert` (source lines
140-196): try the block-level insert at the current slot (succeeds iff the
slot is not readable); on failure return false if the readable slot holds
the identical pair; otherwise advance, and when
`bucket_index + block_index * BLOCK_ARRAY_SIZE == index` (the probe is
back at the start bucket) call `Resize(ht_length * BLOCK_ARRAY_SIZE)` and
retry from scratch; on reaching `BLOCK_ARRAY_SIZE` move to the next block
modulo the block count. -/
def insertLoop (BAS : Nat) (fuel : Nat) (s : HTState) (ht_page : HeaderPage)
    (ht_length index block_index bucket_index key value : Nat) :
    Except Err (HTState × Bool) :=
  match fuel with
  | 0 => .error .fuelOut
  | fuel + 1 =>
    let block_page_id := ht_page.GetBlockPageId block_index
    match fetchBlockPage s block_page_id with
    | none => .error .nullDeref
    | some bp =>
      let r := bp.Insert bucket_index key value
      if r.2 then .ok (setBlockPage s block_page_id r.1, true)
      else if (bp.KeyAt bucket_index == key) && (bp.ValueAt bucket_index == value) then
        .ok (s, false)
      else
        let bucket' := bucket_index + 1
        if bucket' + block_index * BAS == index then
          match Resize BAS fuel s (ht_length * BAS) with
          | .error e => .error e
          | .ok s' => insertGo BAS fuel s' key value
        else if bucket' == BAS then
          insertLoop BAS fuel s ht_page ht_length index ((block_index + 1) % ht_length) 0 key value
        else
          insertLoop BAS fuel s ht_page ht_length index block_index bucket' key value
termination_by structural fuel

/-- Source `LinearProbeHashTable::Resize` (lines 293-348): double the
given size, allocate a new header and `new_size / BLOCK_ARRAY_SIZE` fresh
block pages, then migrate every readable slot of the old table by calling
the table's own Insert — note `header_page_id_` still names the OLD header
during migration — deleting each old block page after its scan, and only
then swap `header_page_id_` to the new header and delete the old header
page. -/
def Resize (BAS : Nat) (fuel : Nat) (s : HTState) (initial_size : Nat) : Except Err HTState :=
  match fuel with
  | 0 => .error .fuelOut
  | fuel + 1 =>
    let new_size := initial_size * 2
    let new_bucket_num := new_size / BAS
    match newPage s with
    | none => .error .nullDeref
    | some (new_header_page_id, s₁) =>
      let ht0 : HeaderPage :=
        { page_id_ := new_header_page_id, size_ := new_bucket_num, block_page_ids_ := [] }
      let p := allocBlockPages s₁ ht0 new_bucket_num
      let s₃ := setHeaderPage p.1 new_header_page_id p.2
      match fetchHeaderPage s₃ s₃.header_page_id_ with
      | none => .error .nullDeref
      | some old_ht =>
        match migrateBlocks BAS (insertGo BAS fuel) old_ht old_ht.NumBlocks 0 s₃ with
        | .error e => .error e
        | .ok s₄ =>
          let old_header_page_id := s₄.header_page_id_
          .ok (deletePage { s₄ with header_page_id_ := new_header_page_id } old_header_page_id)
termination_by structural fuel

end

/-- The probe loop of `LinearProbeHashTable::Remove` (source lines
232-277): walk while occupied; at a slot with matching key and value,
clear its readable bit and return true if it is readable, return false if
it is already a tombstone; break on the same revolution check as GetValue;
switch blocks modulo the block count; return false when the loop ends. -/
def removeLoop (BAS : Nat) (fuel : Nat) (s : HTState) (ht_page : HeaderPage)
    (ht_length index block_index bucket_index key value : Nat) :
    Except Err (HTState × Bool) :=
  match fuel with
  | 0 => .error .fuelOut
  | fuel + 1 =>
    let block_page_id := ht_page.GetBlockPageId block_index
    match fetchBlockPage s block_page_id with
    | none => .error .nullDeref
    | some bp =>
      if bp.IsOccupied bucket_index then
        if (bp.KeyAt bucket_index == key) && (bp.ValueAt bucket_index == value) then
          if bp.IsReadable bucket_index then
            .ok (setBlockPage s block_page_id (bp.Remove bucket_index), true)
          else .ok (s, false)
        else
          let bucket' := bucket_index + 1
          if bucket' + block_index * BAS == index then .ok (s, false)
          else if bucket' == BAS then
            removeLoop BAS fuel s ht_page ht_length index ((block_index + 1) % ht_length) 0 key value
          else
            removeLoop BAS fuel s ht_page ht_length index block_index bucket' key value
      else .ok (s, false)

/-- Source `LinearProbeHashTable::Remove` (lines 213-287). -/
def Remove (BAS : Nat) (fuel : Nat) (s : HTState) (key value : Nat) :
    Except Err (HTState × Bool) :=
  match fetchHeaderPage s s.header_page_id_ with
  | none => .error .nullDeref
  | some ht_page =>
    let ht_length := ht_page.NumBlocks
    let index := s.hash_fn_ key % (BAS * ht_length)
    removeLoop BAS fuel s ht_page ht_length index (index / BAS) (index % BAS) key value

/-- Source constructor `LinearProbeHashTable::LinearProbeHashTable` (lines
26-50): `NewPage` the header (the returned frame pointer is dereferenced
immediately, with no null check), set its size to `num_buckets` and its
page id, then allocate `num_buckets` block pages, adding each id to the
header. -/
def construct (s : HTState) (num_buckets : Nat) : Except Err HTState :=
  match newPage s with
  | none => .error .nullDeref
  | some (hid, s₁) =>
    let ht0 : HeaderPage := { page_id_ := hid, size_ := num_buckets, block_page_ids_ := [] }
    let p := allocBlockPages s₁ ht0 num_buckets
    .ok (setHeaderPage { p.1 with header_page_id_ := hid } hid p.2)

/-- Source `LinearProbeHashTable::GetSize` (lines 354-370): fetch the
header (dereferenced without a null check) and return
`BLOCK_ARRAY_SIZE * NumBlocks`. -/
def GetSize (BAS : Nat) (s : HTState) : Except Err Nat :=
  match fetchHeaderPage s s.header_page_id_ with
  | none => .error .nullDeref
  | some ht_page => .ok (BAS * ht_page.NumBlocks)

/-- Flat position of the probe `t` steps after the start bucket `index`
in a table of capacity `cap` (the probe advances by one bucket, wrapping
to zero at the capacity). -/
def probePos (cap index t : Nat) : Nat := (index + t) % cap

/-- Bucket `f` of the flat address space, read through the header: block
`f / BAS`, offset `f % BAS`. -/
def slotBlock (BAS : Nat) (s : HTState) (h : HeaderPage) (f : Nat) : BlockPage :=
  blockD s (h.GetBlockPageId (f / BAS))

/-- Occupied bit of flat bucket `f`. -/
def occAt (BAS : Nat) (s : HTState) (h : HeaderPage) (f : Nat) : Bool :=
  (slotBlock BAS s h f).IsOccupied (f % BAS)

/-- Readable bit of flat bucket `f`. -/
def readAt (BAS : Nat) (s : HTState) (h : HeaderPage) (f : Nat) : Bool :=
  (slotBlock BAS s h f).IsReadable (f % BAS)

/-- Key stored at flat bucket `f`. -/
def keyAt (BAS : Nat) (s : HTState) (h : HeaderPage) (f : Nat) : Nat :=
  (slotBlock BAS s h f).KeyAt (f % BAS)

/-- Value stored at flat bucket `f`. -/
def valAt (BAS : Nat) (s : HTState) (h : HeaderPage) (f : Nat) : Nat :=
  (slotBlock BAS s h f).ValueAt (f % BAS)

/-- One slot of the clock replacer (source `clock_replacer.h`:
`struct clock_element { bool isPin; bool isRef; }`). -/
structure ClockElement where
  isPin : Bool
  isRef : Bool
deriving DecidableEq, Repr

/-- The clock replacer state (source `clock_replacer.h`): the slot vector
(modelled as a function together with its fixed length `num_pages`), the
candidate counter `clock_size`, and the hand. -/
structure ClockReplacer where
  clock_replacer_list : Nat → ClockElement
  num_pages : Nat
  clock_size : Nat
  clock_hand : Nat

/-- Source constructor `ClockReplacer::ClockReplacer`: every slot pinned
and unreferenced, counter and hand zero. -/
def ClockReplacer.init (num_pages : Nat) : ClockReplacer :=
  { clock_replacer_list := fun _ => { isPin := true, isRef := false },
    num_pages := num_pages, clock_size := 0, clock_hand := 0 }

/-- Update one slot of the vector. -/
def ClockReplacer.setAt (r : ClockReplacer) (i : Nat) (e : ClockElement) : ClockReplacer :=
  { r with clock_replacer_list := fun j => if j = i then e else r.clock_replacer_list j }

/-- Source `ClockReplacer::Victim` (lines 34-55): while `clock_size > 0`,
reduce the hand modulo the vector size; skip a pinned slot; clear the
reference bit of a referenced candidate and advance (second chance);
otherwise select: pin the slot, decrement `clock_size`, output the frame
id, advance the hand.  Returns `none` on fuel exhaustion; a result of
`some (r, none)` models returning false. -/
def ClockReplacer.Victim (fuel : Nat) (r : ClockReplacer) : Option (ClockReplacer × Option Nat) :=
  match fuel with
  | 0 => none
  | fuel + 1 =>
    if 0 < r.clock_size then
      let hand := r.clock_hand % r.num_pages
      let e := r.clock_replacer_list hand
      if e.isPin then
        ClockReplacer.Victim fuel { r with clock_hand := hand + 1 }
      else if e.isRef then
        ClockReplacer.Victim fuel
          { r.setAt hand { isPin := e.isPin, isRef := false } with clock_hand := hand + 1 }
      else
        some ({ r.setAt hand { isPin := true, isRef := e.isRef } with
                  clock_size := r.clock_size - 1, clock_hand := hand + 1 }, some hand)
    else some (r, none)

/-- Source `ClockReplacer::Pin` (lines 57-63). -/
def ClockReplacer.Pin (r : ClockReplacer) (frame_id : Nat) : ClockReplacer :=
  let e := r.clock_replacer_list frame_id
  if e.isPin = false then
    { r.setAt frame_id { e with isPin := true } with clock_size := r.clock_size - 1 }
  else r

/-- Source `ClockReplacer::Unpin` (lines 65-72). -/
def ClockReplacer.Unpin (r : ClockReplacer) (frame_id : Nat) : ClockReplacer :=
  let e := r.clock_replacer_list frame_id
  if e.isPin = true then
    { r.setAt frame_id { isPin := false, isRef := true } with clock_size := r.clock_size + 1 }
  else r

/-- Number of victim candidates (slots with pinned-bit false).  The
reachable-state invariant of the replacer is `clock_size` equal to this
count. -/
def countCandidates (r : ClockReplacer) : Nat :=
  ((List.range r.num_pages).filter (fun i => (r.clock_replacer_list i).isPin = false)).length

/-- A page byte buffer, abstracted as offset to byte. -/
def Bytes := Nat → Nat

/-- The all-zero buffer (result of `ResetMemory`, and content of a disk
page never written). -/
def zeroBytes : Bytes := fun _ => 0

/-- One frame of the buffer pool (source `Page`): byte buffer, resident
page id, pin count, dirty flag. -/
structure BPage where
  data_ : Bytes
  page_id_ : Int
  pin_count_ : Int
  is_dirty_ : Bool

/-- Modelled from the spec: the disk manager (§6, an external collaborator
whose source is not given): page-id to content, the allocation counter,
and a ghost log of the page ids passed to `WritePage`, used to observe
whether a disk write occurred. -/
structure DiskManager where
  disk_pages : Int → Bytes
  next_alloc : Int
  write_log : List Int

/-- Modelled from the spec: `ReadPage` returns the page's disk content. -/
def DiskManager.ReadPage (d : DiskManager) (pid : Int) : Bytes := d.disk_pages pid

/-- Modelled from the spec: `WritePage` persists the buffer and is logged. -/
def DiskManager.WritePage (d : DiskManager) (pid : Int) (b : Bytes) : DiskManager :=
  { d with disk_pages := fun q => if q = pid then b else d.disk_pages q,
           write_log := d.write_log ++ [pid] }

/-- Modelled from the spec: `AllocatePage` returns a fresh unused page
id. -/
def DiskManager.AllocatePage (d : DiskManager) : Int × DiskManager :=
  (d.next_alloc, { d with next_alloc := d.next_alloc + 1 })

/-- The buffer pool manager state (source `buffer_pool_manager.cpp`):
frame array, page table, free list, replacer, disk manager. -/
structure BPMState where
  pool_size_ : Nat
  pages_ : Nat → BPage
  page_table_ : Int → Option Nat
  free_list_ : List Nat
  replacer_ : ClockReplacer
  disk_manager_ : DiskManager

/-- Replace one frame of the pool. -/
def BPMState.setFrame (s : BPMState) (f : Nat) (p : BPage) : BPMState :=
  { s with pages_ := fun j => if j = f then p else s.pages_ j }

/-- Source `BufferPoolManager::FlushPageImpl` (lines 117-136): no-op and
false when the page is not resident or not dirty; otherwise `WritePage`
and clear the dirty flag.  The source returns false in every path. -/
def FlushPageImpl (page_id : Int) (s : BPMState) : BPMState × Bool :=
  match s.page_table_ page_id with
  | none => (s, false)
  | some f =>
    if (s.pages_ f).is_dirty_ = false then (s, false)
    else
      (({ s with disk_manager_ := s.disk_manager_.WritePage page_id (s.pages_ f).data_ }).setFrame
        f { s.pages_ f with is_dirty_ := false }, false)

/-- The shared installation tail of FetchPage (source lines 77-88):
`ResetMemory`, set page id / pin count 1 / clean, `ReadPage` the bytes
from disk into the frame (overwriting the zeroed buffer), and insert the
page-table entry. -/
def fetchInstall (page_id : Int) (s : BPMState) (f : Nat) : BPMState × Option Nat :=
  let s₁ := s.setFrame f
    { data_ := s.disk_manager_.ReadPage page_id, page_id_ := page_id,
      pin_count_ := 1, is_dirty_ := false }
  ({ s₁ with page_table_ := fun q => if q = page_id then some f else s₁.page_table_ q }, some f)

/-- Source `BufferPoolManager::FetchPageImpl` (lines 38-89): resident hit
pins and returns; otherwise take the front of the free list if non-empty,
else ask the replacer for a victim (flushing it first when dirty and
erasing its page-table entry), returning null if the replacer also fails;
then install the requested page.  `fuel` bounds the replacer's sweep;
`none` is fuel exhaustion. -/
def FetchPageImpl (fuel : Nat) (page_id : Int) (s : BPMState) : Option (BPMState × Option Nat) :=
  match s.page_table_ page_id with
  | some f =>
    some (({ s with replacer_ := s.replacer_.Pin f }).setFrame f
      { s.pages_ f with pin_count_ := (s.pages_ f).pin_count_ + 1 }, some f)
  | none =>
    match s.free_list_ with
    | f :: rest => some (fetchInstall page_id { s with free_list_ := rest } f)
    | [] =>
      match s.replacer_.Victim fuel with
      | none => none
      | some (r', none) => some ({ s with replacer_ := r' }, none)
      | some (r', some vf) =>
        let s₁ := { s with replacer_ := r' }
        let vpid := (s₁.pages_ vf).page_id_
        let s₂ := if (s₁.pages_ vf).is_dirty_ = true then (FlushPageImpl vpid s₁).1 else s₁
        let s₃ := { s₂ with page_table_ := fun q => if q = vpid then none else s₂.page_table_ q }
        some (fetchInstall page_id s₃ vf)

/-- The installation tail of NewPage (source lines 167-179):
`AllocatePage`, `ResetMemory`, set metadata, `ReadPage` the fresh page's
bytes from disk into the frame, insert the page-table entry, and hand the
allocated id back through the out parameter. -/
def newInstall (s : BPMState) (f : Nat) : BPMState × Option (Int × Nat) :=
  let a := s.disk_manager_.AllocatePage
  let s₁ := { s with disk_manager_ := a.2 }
  let s₂ := s₁.setFrame f
    { data_ := a.2.ReadPage a.1, page_id_ := a.1, pin_count_ := 1, is_dirty_ := false }
  ({ s₂ with page_table_ := fun q => if q = a.1 then some f else s₂.page_table_ q }, some (a.1, f))

/-- Source `BufferPoolManager::NewPageImpl` (lines 138-180): take the
front of the free list if non-empty; else ask the replacer for a victim
(null if it fails; when it succeeds, flush the victim if dirty and erase
its page-table entry); then allocate a fresh page id and install it. -/
def NewPageImpl (fuel : Nat) (s : BPMState) : Option (BPMState × Option (Int × Nat)) :=
  match s.free_list_ with
  | f :: rest => some (newInstall { s with free_list_ := rest } f)
  | [] =>
    match s.replacer_.Victim fuel with
    | none => none
    | some (r', none) => some ({ s with replacer_ := r' }, none)
    | some (r', some vf) =>
      let s₁ := { s with replacer_ := r' }
      let vpid := (s₁.pages_ vf).page_id_
      let s₂ := if (s₁.pages_ vf).is_dirty_ = true then (FlushPageImpl vpid s₁).1 else s₁
      let s₃ := { s₂ with page_table_ := fun q => if q = vpid then none else s₂.page_table_ q }
      some (newInstall s₃ vf)

/-- Sweep distance from hand position `h` to slot `c` on a clock of `N`
slots (used to measure termination of `Victim`). -/
def clockDist (N h c : Nat) : Nat := if h ≤ c then c - h else c + N - h

/-- Termination key of candidate `c`: its sweep distance, plus a full
revolution when its reference bit is still set (it will be second-chanced
once before it can be selected). -/
def clockKey (r : ClockReplacer) (c : Nat) : Nat :=
  if (r.clock_replacer_list c).isRef then
    r.num_pages + clockDist r.num_pages (r.clock_hand % r.num_pages) c
  else clockDist r.num_pages (r.clock_hand % r.num_pages) c

/-- An operation on one block page (used to state the lifetime invariant
of the bitmaps). -/
inductive BlockOp where
  | ins (i k v : Nat)
  | rem (i : Nat)

/-- Apply one block-page operation. -/
def applyBlockOp : BlockOp → BlockPage → BlockPage
  | .ins i k v, b => (b.Insert i k v).1
  | .rem i, b => b.Remove i

/-- Apply a sequence of block-page operations. -/
def runBlockOps : List BlockOp → BlockPage → BlockPage
  | [], b => b
  | op :: ops, b => runBlockOps ops (applyBlockOp op b)

/-- Well-formedness of a header page relative to a state: the stored size
is the length of the id array, it is positive, the block page ids are
distinct, all of them were produced by the allocator, and none of them is
the header's own page id. -/
def WFhdr (s : HTState) (h : HeaderPage) : Prop :=
  h.NumBlocks = h.block_page_ids_.length ∧ 0 < h.NumBlocks ∧
  h.block_page_ids_.Nodup ∧
  (∀ pid ∈ h.block_page_ids_, pid < s.next_page_id) ∧
  s.header_page_id_ ∉ h.block_page_ids_

/-- Well-formed table state: the pool can supply frames, the current
header page id came from the allocator, and the current header page is
stored and well formed.  These are the reachable-state invariants of the
constructor and of Resize. -/
def WF (s : HTState) : Prop :=
  s.pool_ok = true ∧ s.header_page_id_ < s.next_page_id ∧
  ∃ h, s.headers s.header_page_id_ = some h ∧ WFhdr s h

/-- Page id `P` is protected in state `s`: it was allocated, it is not the
current header and not one of the current header's blocks, so no operation
of the table will write to or delete page `P`. -/
def Pprot (s : HTState) (P : Nat) : Prop :=
  P < s.next_page_id ∧ s.header_page_id_ ≠ P ∧
  ∀ q ∈ (headerD s s.header_page_id_).block_page_ids_, q ≠ P

/-- What one table-level insertion (or resize) preserves, from state `s`
to state `t`: well-formedness, monotone allocation, the pool flag and the
hash function, the current header id unchanged or replaced by a freshly
allocated one, and every protected page untouched and still protected. -/
def InsPres (s t : HTState) : Prop :=
  WF t ∧ s.next_page_id ≤ t.next_page_id ∧
  t.pool_ok = s.pool_ok ∧ t.hash_fn_ = s.hash_fn_ ∧
  (t.header_page_id_ = s.header_page_id_ ∨ s.next_page_id ≤ t.header_page_id_) ∧
  ∀ P, Pprot s P → Pprot t P ∧ t.headers P = s.headers P ∧ t.blocks P = s.blocks P

/-- After a successful insertion of `(k, v)` into `s'`: the current header
exists, some probe position `t0` of `k`'s run holds the pair readable, and
a second insertion of the identical pair returns false leaving the state
unchanged (given fuel at least `t0 + 2`). -/
def SecondInsertRejects (BAS : Nat) (s' : HTState) (k v : Nat) : Prop :=
  ∃ hdr, s'.headers s'.header_page_id_ = some hdr ∧
    ∃ t0, t0 < BAS * hdr.NumBlocks ∧
      (readAt BAS s' hdr
          (probePos (BAS * hdr.NumBlocks) (s'.hash_fn_ k % (BAS * hdr.NumBlocks)) t0) = true ∧
        keyAt BAS s' hdr
          (probePos (BAS * hdr.NumBlocks) (s'.hash_fn_ k % (BAS * hdr.NumBlocks)) t0) = k ∧
        valAt BAS s' hdr
          (probePos (BAS * hdr.NumBlocks) (s'.hash_fn_ k % (BAS * hdr.NumBlocks)) t0) = v) ∧
      ∀ fuel, t0 + 2 ≤ fuel → insertGo BAS fuel s' k v = .ok (s', false)

/-- Identity hash used in the concrete examples (test scenario 4 of the
spec uses `hash(k) = k`). -/
def exHash : Nat → Nat := fun k => k

/-- Header of a one-block example table: header page 0, block page 1. -/
def exHeader1 : HeaderPage := { page_id_ := 0, size_ := 1, block_page_ids_ := [1] }

/-- Example block for C1: slot 0 readable with pair (0, 7). -/
def exBlockC1 : BlockPage :=
  { array_ := fun i => if i = 0 then (0, 7) else (0, 0),
    occupied_ := fun i => i == 0,
    readable_ := fun i => i == 0 }

/-- Example state for C1: one block (BAS = 4) holding the single readable
pair (0, 7). -/
def exStateC1 : HTState :=
  { header_page_id_ := 0,
    headers := fun q => if q = 0 then some exHeader1 else none,
    blocks := fun q => if q = 1 then some exBlockC1 else none,
    next_page_id := 2, pool_ok := true, hash_fn_ := exHash }

/-- Example block for C2: all four slots occupied, none readable (four
insertions followed by four removals leave exactly this bitmap state). -/
def exBlockC2 : BlockPage :=
  { array_ := fun _ => (0, 0),
    occupied_ := fun i => decide (i < 4),
    readable_ := fun _ => false }

/-- Example state for C2: a one-block table (BAS = 4) whose slots are all
tombstones. -/
def exStateC2 : HTState :=
  { header_page_id_ := 0,
    headers := fun q => if q = 0 then some exHeader1 else none,
    blocks := fun q => if q = 1 then some exBlockC2 else none,
    next_page_id := 2, pool_ok := true, hash_fn_ := exHash }

/-- Example block for the C3 counterexample: slot 0 is a tombstone, slot 1
is readable with pair (0, 5).  Reached by Insert(0,x), Insert(0,5),
Remove(0,x). -/
def exBlockC3 : BlockPage :=
  { array_ := fun i => if i = 1 then (0, 5) else (0, 0),
    occupied_ := fun i => decide (i < 2),
    readable_ := fun i => i == 1 }

/-- Example state for the C3 counterexample. -/
def exStateC3 : HTState :=
  { header_page_id_ := 0,
    headers := fun q => if q = 0 then some exHeader1 else none,
    blocks := fun q => if q = 1 then some exBlockC3 else none,
    next_page_id := 2, pool_ok := true, hash_fn_ := exHash }

/-- Example block for C4: a full block, slot `i` readable with pair
(i, 10·i). -/
def exBlockC4 : BlockPage :=
  { array_ := fun i => (i, 10 * i),
    occupied_ := fun i => decide (i < 4),
    readable_ := fun i => decide (i < 4) }

/-- Example state for C4: a full one-block table (BAS = 4). -/
def exStateC4 : HTState :=
  { header_page_id_ := 0,
    headers := fun q => if q = 0 then some exHeader1 else none,
    blocks := fun q => if q = 1 then some exBlockC4 else none,
    next_page_id := 2, pool_ok := true, hash_fn_ := exHash }

/-- Witness block: slot 0 readable with (0, 5), the rest empty. -/
def exBlockW : BlockPage :=
  { array_ := fun i => if i = 0 then (0, 5) else (0, 0),
    occupied_ := fun i => i == 0,
    readable_ := fun i => i == 0 }

/-- Witness state: one-block table holding only (0, 5) at slot 0. -/
def exStateW : HTState :=
  { header_page_id_ := 0,
    headers := fun q => if q = 0 then some exHeader1 else none,
    blocks := fun q => if q = 1 then some exBlockW else none,
    next_page_id := 2, pool_ok := true, hash_fn_ := exHash }

/-- Witness state: an empty one-block table. -/
def exStateE : HTState :=
  { header_page_id_ := 0,
    headers := fun q => if q = 0 then some exHeader1 else none,
    blocks := fun q => if q = 1 then some zeroBlock else none,
    next_page_id := 2, pool_ok := true, hash_fn_ := exHash }

/-- Witness state with an exhausted buffer pool. -/
def exStateBad : HTState := { exStateE with pool_ok := false }

/-- Default frame content of a fresh buffer pool. -/
def exFrame : BPage := { data_ := zeroBytes, page_id_ := -1, pin_count_ := 0, is_dirty_ := false }

/-- A fresh disk: all pages zero, allocator at 0, nothing written. -/
def exDisk : DiskManager := { disk_pages := fun _ => zeroBytes, next_alloc := 0, write_log := [] }

/-- A fresh two-frame buffer pool. -/
def exBPM : BPMState :=
  { pool_size_ := 2, pages_ := fun _ => exFrame, page_table_ := fun _ => none,
    free_list_ := [0, 1], replacer_ := ClockReplacer.init 2, disk_manager_ := exDisk }

/-- The result of the first NewPage on the fresh pool (used by the C5
witness). -/
def exBPMnew : BPMState × Option (Int × Nat) := (NewPageImpl 1 exBPM).getD (exBPM, none)

/-- Witness replacer: slot 0 pinned, slot 1 an unpinned candidate with its
reference bit set. -/
def exClock : ClockReplacer :=
  { clock_replacer_list := fun i => if i = 1 then { isPin := false, isRef := true }
      else { isPin := true, isRef := false },
    num_pages := 2, clock_size := 1, clock_hand := 0 }

theorem blockInsert_occ_mono (b : BlockPage) (i k v j : Nat) (h : b.occupied_ j = true) :
    ((b.Insert i k v).1).occupied_ j = true := by
  unfold BlockPage.Insert
  cases hr : b.IsReadable i
  · by_cases hji : j = i <;> simp [hji, h]
  · simp [h]

theorem blockRemove_occ_mono (b : BlockPage) (i j : Nat) (h : b.occupied_ j = true) :
    (b.Remove i).occupied_ j = true := by
  unfold BlockPage.Remove
  cases hr : b.IsOccupied i <;> simp [h]

theorem applyBlockOp_occ_mono (op : BlockOp) (b : BlockPage) (j : Nat)
    (h : b.occupied_ j = true) : (applyBlockOp op b).occupied_ j = true := by
  cases op with
  | ins i k v => exact blockInsert_occ_mono b i k v j h
  | rem i => exact blockRemove_occ_mono b i j h

theorem blockInv_step (op : BlockOp) (b : BlockPage)
    (h : ∀ j, b.readable_ j = true → b.occupied_ j = true) :
    ∀ j, (applyBlockOp op b).readable_ j = true → (applyBlockOp op b).occupied_ j = true := by
  intro j
  cases op with
  | ins i k v =>
    unfold applyBlockOp BlockPage.Insert
    cases hr : b.IsReadable i
    · by_cases hji : j = i
      · simp [hr, hji]
      · simpa [hr, hji] using h j
    · simpa [hr] using h j
  | rem i =>
    unfold applyBlockOp BlockPage.Remove
    cases hr : b.IsOccupied i
    · simpa [hr] using h j
    · by_cases hji : j = i
      · simp [hr, hji]
      · simpa [hr, hji] using h j

theorem runBlockOps_inv (ops : List BlockOp) :
    ∀ b, (∀ j, b.readable_ j = true → b.occupied_ j = true) →
      ∀ j, (runBlockOps ops b).readable_ j = true → (runBlockOps ops b).occupied_ j = true := by
  induction ops with
  | nil => intro b h; exact h
  | cons op ops ih => intro b h; exact ih (applyBlockOp op b) (blockInv_step op b h)

/-- C8: in every block page, after any sequence of the block-page
operations Insert and Remove starting from a fresh (zeroed) block,
`readable[i]` implies `occupied[i]`; and no single operation ever clears
an occupied bit (tombstones keep the occupied bit set). -/
theorem C8_bitmap_invariant :
    (∀ ops i, (runBlockOps ops zeroBlock).readable_ i = true →
        (runBlockOps ops zeroBlock).occupied_ i = true) ∧
    (∀ op b i, b.occupied_ i = true → (applyBlockOp op b).occupied_ i = true) := by
  constructor
  · intro ops i
    exact runBlockOps_inv ops zeroBlock (by intro j h; simp [zeroBlock] at h) i
  · intro op b i h
    exact applyBlockOp_occ_mono op b i h

/-- Witness for C8 at a concrete sequence: after inserting at slot 0 the
slot is occupied, and it stays occupied after the removal that tombstones
it. -/
theorem C8_bitmap_invariant_witness :
    (runBlockOps [BlockOp.ins 0 1 2] zeroBlock).occupied_ 0 = true ∧
    (applyBlockOp (BlockOp.rem 0) (runBlockOps [BlockOp.ins 0 1 2] zeroBlock)).occupied_ 0 = true := by
  refine ⟨C8_bitmap_invariant.1 [BlockOp.ins 0 1 2] 0 (by decide), ?_⟩
  exact C8_bitmap_invariant.2 (BlockOp.rem 0) _ 0
    (C8_bitmap_invariant.1 [BlockOp.ins 0 1 2] 0 (by decide))

theorem append_if (acc : List Nat) (c : Prop) [Decidable c] (v : Nat) :
    ∃ t, (if c then acc ++ [v] else acc) = acc ++ t := by
  split
  · exact ⟨[v], rfl⟩
  · exact ⟨[], by simp⟩

theorem getValueLoop_append (BAS : Nat) :
    ∀ fuel s hdr len index bi bu bp key acc res,
      getValueLoop BAS fuel s hdr len index bi bu bp key acc = .ok res →
      ∃ t, res = acc ++ t := by
  intro fuel
  induction fuel with
  | zero =>
    intro s hdr len index bi bu bp key acc res h
    exact Except.noConfusion h
  | succ n ih =>
    intro s hdr len index bi bu bp key acc res h
    rw [getValueLoop] at h
    dsimp only at h
    rcases append_if acc ((bp.IsReadable bu && (bp.KeyAt bu == key)) = true) (bp.ValueAt bu)
      with ⟨t₀, ht₀⟩
    split at h
    · split at h
      · simp only [Except.ok.injEq] at h
        exact ⟨t₀, by rw [← h]; exact ht₀⟩
      · split at h
        · split at h
          · exact Except.noConfusion h
          · rw [ht₀] at h
            rcases ih _ _ _ _ _ _ _ _ _ _ h with ⟨t, ht⟩
            exact ⟨t₀ ++ t, by simp [ht]⟩
        · rw [ht₀] at h
          rcases ih _ _ _ _ _ _ _ _ _ _ h with ⟨t, ht⟩
          exact ⟨t₀ ++ t, by simp [ht]⟩
    · simp only [Except.ok.injEq] at h
      exact ⟨[], by simp [← h]⟩

/-- C10: GetValue only appends to the caller-supplied result vector (the
input vector is a prefix of the output), and its boolean return value is
true exactly when the vector is non-empty after the call — so a caller
passing a non-empty vector receives true even when no slot matches. -/
theorem C10_append_only (BAS fuel : Nat) (s : HTState) (key : Nat) (acc res : List Nat)
    (b : Bool) (h : GetValue BAS fuel s key acc = .ok (res, b)) :
    (∃ t, res = acc ++ t) ∧ (b = true ↔ res ≠ []) := by
  rw [GetValue] at h
  split at h
  · exact Except.noConfusion h
  next ht_page hh =>
    dsimp only at h
    split at h
    · exact Except.noConfusion h
    next bp hb =>
      split at h
      · exact Except.noConfusion h
      next res' hl =>
        simp only [Except.ok.injEq, Prod.mk.injEq] at h
        rcases h with ⟨h1, h2⟩
        subst h1
        subst h2
        refine ⟨getValueLoop_append BAS fuel s ht_page _ _ _ _ bp key acc res' hl, ?_⟩
        simp [List.length_pos]

/-- Witness for C10: on an empty one-block table, a GetValue for key 7
with a non-empty caller vector `[42]` leaves the vector as a prefix of the
result and returns true although no slot matches. -/
theorem C10_append_only_witness :
    (∃ t, [42] = [42] ++ t) ∧ (true = true ↔ ([42] : List Nat) ≠ []) :=
  C10_append_only 4 5 exStateE 7 [42] [42] true rfl

/-- C1 (divergence of the code from the claim): on a one-block table
(BAS = 4) holding the single readable pair (0, 7), the pair is retrievable
before Resize(4); after Resize(4) the block count is the claimed
(2·4)/BAS = 2, and no tombstone exists in the new blocks, but the pair is
NOT retrievable against the new header: migration reinserted it into the
still-current old table, where it was rejected as a duplicate, and the old
pages were then deleted. -/
theorem C1_resize_drops_entries :
    GetValue 4 30 exStateC1 0 [] = .ok ([7], true) ∧
    (Resize 4 30 exStateC1 4).map (fun t => (headerD t t.header_page_id_).NumBlocks) =
      .ok ((2 * 4) / 4) ∧
    (Resize 4 30 exStateC1 4).bind (fun t => GetValue 4 30 t 0 []) = .ok ([], false) :=
  ⟨rfl, rfl, rfl⟩

theorem getValueLoop_exC2 : ∀ fuel bu acc, bu < 4 →
    getValueLoop 4 fuel exStateC2 exHeader1 1 0 0 bu exBlockC2 0 acc = .error .fuelOut := by
  intro fuel
  induction fuel with
  | zero => intro bu acc _; rfl
  | succ n ih =>
    intro bu acc hbu
    interval_cases bu
    · exact ih 1 acc (by omega)
    · exact ih 2 acc (by omega)
    · exact ih 3 acc (by omega)
    · exact ih 0 acc (by omega)

/-- C2 (divergence of the code from the claim): on a one-block table
(BAS = 4) whose four slots are all occupied tombstones, GetValue for a key
hashing to bucket 0 never terminates: the full-revolution check compares
the unwrapped flat position with the start index, and after wrapping past
the last block the position 0 is never matched (the check value is always
at least 1), so the probe cycles forever. -/
theorem C2_getvalue_diverges : ∀ fuel, GetValue 4 fuel exStateC2 0 [] = .error .fuelOut := by
  intro fuel
  have h := getValueLoop_exC2 fuel 0 [] (by omega)
  have e : GetValue 4 fuel exStateC2 0 [] =
      (match getValueLoop 4 fuel exStateC2 exHeader1 1 0 0 0 exBlockC2 0 [] with
       | .error err => .error err
       | .ok res => .ok (res, decide (0 < res.length))) := rfl
  rw [e, h]

theorem insertLoop_exC4 : ∀ fuel bu, bu < 4 →
    insertLoop 4 fuel exStateC4 exHeader1 1 0 0 bu 0 9 = .error .fuelOut := by
  intro fuel
  induction fuel with
  | zero => intro bu _; rfl
  | succ n ih =>
    intro bu hbu
    interval_cases bu
    · exact ih 1 (by omega)
    · exact ih 2 (by omega)
    · exact ih 3 (by omega)
    · exact ih 0 (by omega)

/-- C4 (divergence of the code from the claim): on a full one-block table
(BAS = 4, slots 0..3 readable with keys 0..3), Insert(0, 9) — whose start
bucket is 0 — revisits the start bucket without finding an insertable
slot, yet never calls Resize: the full-table check compares the unwrapped
flat position with start index 0 and can never equal 0, so the probe
cycles forever instead of resizing and retrying. -/
theorem C4_insert_full_table_diverges :
    ∀ fuel, insertGo 4 fuel exStateC4 0 9 = .error .fuelOut := by
  intro fuel
  cases fuel with
  | zero => rfl
  | succ n => exact insertLoop_exC4 n 0 (by omega)

/-- C3 counterexample: in a one-block table (BAS = 4) whose slot 0 is a
tombstone and whose slot 1 is readable with exactly (0, 5) — both slots in
the occupied probe run of start bucket hash(0) = 0 — Insert(0, 5) returns
true (the claim says false), writes into slot 0, and leaves two readable
slots holding (0, 5) (the claim says exactly one), so GetValue(0)
afterwards returns the value twice. -/
theorem C3_counterexample :
    (occAt 4 exStateC3 exHeader1 0 = true ∧ occAt 4 exStateC3 exHeader1 1 = true ∧
      readAt 4 exStateC3 exHeader1 1 = true ∧ keyAt 4 exStateC3 exHeader1 1 = 0 ∧
      valAt 4 exStateC3 exHeader1 1 = 5 ∧
      exStateC3.hash_fn_ 0 % (4 * exHeader1.NumBlocks) = 0) ∧
    (insertGo 4 10 exStateC3 0 5).map (fun r => r.2) = .ok true ∧
    (insertGo 4 10 exStateC3 0 5).bind (fun r => GetValue 4 10 r.1 0 []) = .ok ([5, 5], true) :=
  ⟨⟨rfl, rfl, rfl, rfl, rfl, rfl⟩, rfl, rfl⟩

theorem clockDist_lt (N h c : Nat) (hh : h < N) (hc : c < N) : clockDist N h c < N := by
  unfold clockDist
  split <;> omega

theorem clockDist_succ (N h c : Nat) (hh : h < N) (hc : c < N) (hne : c ≠ h) :
    clockDist N ((h + 1) % N) c + 1 = clockDist N h c := by
  unfold clockDist
  rcases Nat.lt_or_ge (h + 1) N with h1 | h1
  · rw [Nat.mod_eq_of_lt h1]
    split <;> split <;> omega
  · have hN : h + 1 = N := by omega
    rw [hN, Nat.mod_self]
    split <;> split <;> omega

theorem clockDist_self_succ (N h : Nat) (hh : h < N) : clockDist N ((h + 1) % N) h = N - 1 := by
  unfold clockDist
  rcases Nat.lt_or_ge (h + 1) N with h1 | h1
  · rw [Nat.mod_eq_of_lt h1]
    split <;> omega
  · have hN : h + 1 = N := by omega
    rw [hN, Nat.mod_self]
    split <;> omega

theorem victim_aux : ∀ fuel (r : ClockReplacer) (c : Nat),
    0 < r.clock_size → c < r.num_pages →
    (r.clock_replacer_list c).isPin = false → clockKey r c < fuel →
    ∃ r' vf, ClockReplacer.Victim fuel r = some (r', some vf) ∧ vf < r.num_pages ∧
      (r.clock_replacer_list vf).isPin = false ∧
      r'.clock_replacer_list vf = { isPin := true, isRef := false } ∧
      r'.clock_size = r.clock_size - 1 ∧ r'.clock_hand = vf + 1 ∧
      r'.num_pages = r.num_pages ∧
      (∀ j, j ≠ vf → (r'.clock_replacer_list j).isPin = (r.clock_replacer_list j).isPin) := by
  intro fuel
  induction fuel with
  | zero => intro r c hsz hc hpin hkey; exact absurd hkey (by omega)
  | succ n ih =>
    intro r c hsz hc hpin hkey
    have hN : 0 < r.num_pages := by omega
    have hh0lt : r.clock_hand % r.num_pages < r.num_pages := Nat.mod_lt _ hN
    have hd0 : clockDist r.num_pages (r.clock_hand % r.num_pages) (r.clock_hand % r.num_pages) = 0 := by
      unfold clockDist
      simp
    rw [ClockReplacer.Victim, if_pos hsz]
    dsimp only
    cases hp : (r.clock_replacer_list (r.clock_hand % r.num_pages)).isPin
    · rw [if_neg (by simp [hp])]
      cases hrf : (r.clock_replacer_list (r.clock_hand % r.num_pages)).isRef
      · -- selection: candidate with clear reference bit under the hand
        rw [if_neg (by simp [hrf])]
        refine ⟨_, r.clock_hand % r.num_pages, rfl, hh0lt, hp, ?_, rfl, rfl, rfl, ?_⟩
        · show (ClockReplacer.setAt r _ _).clock_replacer_list _ = _
          simp [ClockReplacer.setAt, hrf]
        · intro j hj
          show ((ClockReplacer.setAt r _ _).clock_replacer_list j).isPin = _
          simp [ClockReplacer.setAt, hj]
      · -- second chance: clear the reference bit and advance
        rw [if_pos rfl]
        set r₁ : ClockReplacer :=
          { r.setAt (r.clock_hand % r.num_pages) { isPin := false, isRef := false } with
            clock_hand := r.clock_hand % r.num_pages + 1 } with hr₁
        have hnum : r₁.num_pages = r.num_pages := rfl
        have hsz₁ : r₁.clock_size = r.clock_size := rfl
        have hhand₁ : r₁.clock_hand = r.clock_hand % r.num_pages + 1 := rfl
        have hlist : ∀ j, r₁.clock_replacer_list j =
            if j = r.clock_hand % r.num_pages then { isPin := false, isRef := false }
            else r.clock_replacer_list j := by
          intro j
          rfl
        have hpins : ∀ j, (r₁.clock_replacer_list j).isPin = (r.clock_replacer_list j).isPin := by
          intro j
          rw [hlist j]
          by_cases hj : j = r.clock_hand % r.num_pages
          · rw [if_pos hj, hj, hp]
          · rw [if_neg hj]
        have hkey₁ : clockKey r₁ c < n := by
          unfold clockKey
          rw [hnum, hhand₁, hlist c]
          by_cases hch : c = r.clock_hand % r.num_pages
          · rw [if_pos hch]
            have hkr : r.num_pages ≤ n := by
              unfold clockKey at hkey
              rw [hch, hrf] at hkey
              simp [hch, hd0] at hkey
              omega
            simp only [Bool.false_eq_true, if_false]
            rw [hch, clockDist_self_succ _ _ hh0lt]
            omega
          · rw [if_neg hch]
            have hstep := clockDist_succ r.num_pages (r.clock_hand % r.num_pages) c hh0lt hc hch
            rw [Nat.mod_add_mod] at hstep
            unfold clockKey at hkey
            cases hrc : (r.clock_replacer_list c).isRef <;> rw [hrc] at hkey <;>
              simp at hkey ⊢ <;> omega
        rcases ih r₁ c (by omega) (by omega) (by rw [hpins]; exact hpin) hkey₁ with
          ⟨r', vf, hvic, hvf, hvfpin, hsel, hsz', hhand', hnum', hpins'⟩
        refine ⟨r', vf, hvic, by omega, ?_, hsel, by omega, hhand', by omega, ?_⟩
        · rw [← hpins vf]
          exact hvfpin
        · intro j hj
          rw [hpins' j hj, hpins j]
    · -- pinned slot: skip
      rw [if_pos rfl]
      have hch : c ≠ r.clock_hand % r.num_pages := by
        intro he
        rw [he, hp] at hpin
        exact Bool.noConfusion hpin
      set r₁ : ClockReplacer := { r with clock_hand := r.clock_hand % r.num_pages + 1 } with hr₁
      have hnum : r₁.num_pages = r.num_pages := rfl
      have hhand₁ : r₁.clock_hand = r.clock_hand % r.num_pages + 1 := rfl
      have hlist : r₁.clock_replacer_list = r.clock_replacer_list := rfl
      have hkey₁ : clockKey r₁ c < n := by
        unfold clockKey
        rw [hnum, hhand₁, hlist]
        have hstep := clockDist_succ r.num_pages (r.clock_hand % r.num_pages) c hh0lt hc hch
        rw [Nat.mod_add_mod] at hstep
        unfold clockKey at hkey
        cases hrc : (r.clock_replacer_list c).isRef <;> rw [hrc] at hkey <;>
          simp at hkey ⊢ <;> omega
      rcases ih r₁ c hsz hc hpin hkey₁ with
        ⟨r', vf, hvic, hvf, hvfpin, hsel, hsz', hhand', hnum', hpins'⟩
      exact ⟨r', vf, hvic, hvf, hvfpin, hsel, hsz', hhand', hnum', hpins'⟩

theorem countCandidates_pos (r : ClockReplacer) (h : 0 < countCandidates r) :
    ∃ c, c < r.num_pages ∧ (r.clock_replacer_list c).isPin = false := by
  unfold countCandidates at h
  rcases List.exists_mem_of_length_pos h with ⟨c, hc⟩
  rcases List.mem_filter.mp hc with ⟨hr, hp⟩
  exact ⟨c, List.mem_range.mp hr, by simpa using hp⟩

theorem clockKey_lt (r : ClockReplacer) (c : Nat) (hc : c < r.num_pages) :
    clockKey r c < 2 * r.num_pages + 1 := by
  have h0 : r.clock_hand % r.num_pages < r.num_pages := Nat.mod_lt _ (by omega)
  have := clockDist_lt r.num_pages (r.clock_hand % r.num_pages) c h0 hc
  unfold clockKey
  split <;> omega

theorem victim_none (r : ClockReplacer) (fuel : Nat) (h : r.clock_size = 0) :
    ClockReplacer.Victim (fuel + 1) r = some (r, none) := by
  rw [ClockReplacer.Victim, if_neg (by omega)]

/-- C6: under the reachable-state invariant that `clock_size` counts the
candidates (pinned-bit false), Victim returns false (state unchanged) when
the candidate count is 0; otherwise the sweep terminates within 2·N+1
steps and selects a candidate whose reference bit is clear at selection
time: its pinned-bit is set afterwards, the candidate count is
decremented, its frame id is returned, the hand advances past it, and no
other slot's pinned-bit changes. -/
theorem C6_victim_spec (r : ClockReplacer) (hinv : r.clock_size = countCandidates r) :
    (r.clock_size = 0 → ∀ fuel, ClockReplacer.Victim (fuel + 1) r = some (r, none)) ∧
    (0 < r.clock_size →
      ∃ r' vf, ClockReplacer.Victim (2 * r.num_pages + 1) r = some (r', some vf) ∧
        vf < r.num_pages ∧ (r.clock_replacer_list vf).isPin = false ∧
        r'.clock_replacer_list vf = { isPin := true, isRef := false } ∧
        r'.clock_size = r.clock_size - 1 ∧ r'.clock_hand = vf + 1 ∧
        r'.num_pages = r.num_pages ∧
        (∀ j, j ≠ vf → (r'.clock_replacer_list j).isPin = (r.clock_replacer_list j).isPin)) := by
  constructor
  · intro h0 fuel
    exact victim_none r fuel h0
  · intro hpos
    rcases countCandidates_pos r (hinv ▸ hpos) with ⟨c, hc, hp⟩
    exact victim_aux _ r c hpos hc hp (clockKey_lt r c hc)

/-- Witness for C6: on a two-slot replacer with slot 0 pinned and slot 1
an unpinned referenced candidate, Victim terminates and selects a
candidate with the stated postconditions. -/
theorem C6_victim_spec_witness :
    ∃ r' vf, ClockReplacer.Victim (2 * exClock.num_pages + 1) exClock = some (r', some vf) ∧
      vf < exClock.num_pages ∧ (exClock.clock_replacer_list vf).isPin = false ∧
      r'.clock_replacer_list vf = { isPin := true, isRef := false } ∧
      r'.clock_size = exClock.clock_size - 1 ∧ r'.clock_hand = vf + 1 ∧
      r'.num_pages = exClock.num_pages ∧
      (∀ j, j ≠ vf → (r'.clock_replacer_list j).isPin = (exClock.clock_replacer_list j).isPin) :=
  (C6_victim_spec exClock (by decide)).2 (by decide)

theorem flush_next_alloc (pid : Int) (s : BPMState) :
    ((FlushPageImpl pid s).1).disk_manager_.next_alloc = s.disk_manager_.next_alloc := by
  unfold FlushPageImpl
  split
  · rfl
  · split
    · rfl
    · rfl

theorem flush_disk_ne (pid : Int) (s : BPMState) (q : Int) (hq : q ≠ pid) :
    ((FlushPageImpl pid s).1).disk_manager_.disk_pages q = s.disk_manager_.disk_pages q := by
  unfold FlushPageImpl
  split
  · rfl
  · split
    · rfl
    · show ((s.disk_manager_.WritePage pid _).disk_pages) q = _
      unfold DiskManager.WritePage
      simp [hq]

theorem flush_log_dirty (pid : Int) (s : BPMState) (f : Nat)
    (hf : s.page_table_ pid = some f) (hd : (s.pages_ f).is_dirty_ = true) :
    ((FlushPageImpl pid s).1).disk_manager_.write_log = s.disk_manager_.write_log ++ [pid] := by
  unfold FlushPageImpl
  rw [hf]
  dsimp only
  rw [if_neg (by simp [hd])]
  rfl

/-- C5: whenever NewPage succeeds, the chosen frame holds the page id
freshly allocated by the disk manager, its pin count is 1, its dirty flag
is false, its byte buffer is all zeros, the page table maps the new id to
that frame, and the id is handed back through the out parameter (the
first component of the returned pair).  The zero-buffer conclusion uses
the invariants that a never-written disk page reads as zeros and that all
resident page ids precede the allocator counter. -/
theorem C5_newpage_spec (fuel : Nat) (s s' : BPMState) (pid : Int) (f : Nat)
    (hzero : s.disk_manager_.disk_pages s.disk_manager_.next_alloc = zeroBytes)
    (hfresh : ∀ fid, (s.pages_ fid).page_id_ < s.disk_manager_.next_alloc)
    (h : NewPageImpl fuel s = some (s', some (pid, f))) :
    pid = s.disk_manager_.next_alloc ∧
    (s'.pages_ f).page_id_ = pid ∧ (s'.pages_ f).pin_count_ = 1 ∧
    (s'.pages_ f).is_dirty_ = false ∧ (s'.pages_ f).data_ = zeroBytes ∧
    s'.page_table_ pid = some f := by
  unfold NewPageImpl at h
  split at h
  · -- free-list path
    unfold newInstall at h
    dsimp only at h
    simp only [Option.some.injEq, Prod.mk.injEq] at h
    rcases h with ⟨h1, h2, h3⟩
    subst h1
    subst h2
    subst h3
    refine ⟨rfl, ?_, ?_, ?_, ?_, ?_⟩ <;>
      simp [BPMState.setFrame, DiskManager.AllocatePage, DiskManager.ReadPage, hzero]
  · -- victim path
    split at h
    · exact Option.noConfusion h
    · simp at h
    next r' vf hvic =>
      dsimp only at h
      by_cases hd : (s.pages_ vf).is_dirty_ = true
      · rw [if_pos hd] at h
        unfold newInstall at h
        dsimp only at h
        simp only [Option.some.injEq, Prod.mk.injEq] at h
        rcases h with ⟨h1, h2, h3⟩
        have hnext : ((FlushPageImpl ((s.pages_ vf).page_id_)
            { s with replacer_ := r' }).1).disk_manager_.next_alloc =
            s.disk_manager_.next_alloc := flush_next_alloc _ _
        have hdisk : ((FlushPageImpl ((s.pages_ vf).page_id_)
            { s with replacer_ := r' }).1).disk_manager_.disk_pages
              s.disk_manager_.next_alloc = zeroBytes := by
          rw [flush_disk_ne _ _ _ (by have := hfresh vf; omega)]
          exact hzero
        subst h3
        subst h2
        subst h1
        refine ⟨?_, ?_, ?_, ?_, ?_, ?_⟩ <;>
          simp [BPMState.setFrame, DiskManager.AllocatePage, DiskManager.ReadPage, hnext, hdisk]
      · rw [if_neg hd] at h
        unfold newInstall at h
        dsimp only at h
        simp only [Option.some.injEq, Prod.mk.injEq] at h
        rcases h with ⟨h1, h2, h3⟩
        subst h1
        subst h2
        subst h3
        refine ⟨rfl, ?_, ?_, ?_, ?_, ?_⟩ <;>
          simp [BPMState.setFrame, DiskManager.AllocatePage, DiskManager.ReadPage, hzero]

/-- Witness for C5: the first NewPage on a fresh two-frame pool yields
page id 0 in frame 0 with the claimed frame state. -/
theorem C5_newpage_spec_witness :
    (0 : Int) = exBPM.disk_manager_.next_alloc ∧
    (exBPMnew.1.pages_ 0).page_id_ = 0 ∧ (exBPMnew.1.pages_ 0).pin_count_ = 1 ∧
    (exBPMnew.1.pages_ 0).is_dirty_ = false ∧ (exBPMnew.1.pages_ 0).data_ = zeroBytes ∧
    exBPMnew.1.page_table_ 0 = some 0 :=
  C5_newpage_spec 1 exBPM exBPMnew.1 0 0 rfl (by intro fid; show (-1 : Int) < 0; decide) rfl

/-- C7: for a non-resident page id, FetchPage and NewPage take the front
of the free list whenever it is non-empty (replacer untouched, no disk
write); only with an empty free list do they consult the replacer; they
return null exactly when the free list is empty and the replacer has no
candidate; and a victim's resident page is written back to disk (observed
on the disk manager's write log) if and only if its dirty flag is set.
Hypotheses are the reachable-state invariants: the replacer's counter
counts its candidates, and every unpinned frame's resident page is in the
page table. -/
theorem C7_frame_acquisition (s : BPMState) (pid : Int)
    (hnr : s.page_table_ pid = none)
    (hinv : s.replacer_.clock_size = countCandidates s.replacer_)
    (hres : ∀ fid, fid < s.replacer_.num_pages →
      (s.replacer_.clock_replacer_list fid).isPin = false →
      s.page_table_ ((s.pages_ fid).page_id_) = some fid) :
    (∀ f rest, s.free_list_ = f :: rest →
      (∃ s₁, FetchPageImpl (2 * s.replacer_.num_pages + 1) pid s = some (s₁, some f) ∧
        s₁.replacer_ = s.replacer_ ∧ s₁.free_list_ = rest ∧
        s₁.disk_manager_.write_log = s.disk_manager_.write_log) ∧
      (∃ s₂, NewPageImpl (2 * s.replacer_.num_pages + 1) s =
          some (s₂, some (s.disk_manager_.next_alloc, f)) ∧
        s₂.replacer_ = s.replacer_ ∧ s₂.free_list_ = rest ∧
        s₂.disk_manager_.write_log = s.disk_manager_.write_log)) ∧
    (s.free_list_ = [] → s.replacer_.clock_size = 0 →
      FetchPageImpl (2 * s.replacer_.num_pages + 1) pid s = some (s, none) ∧
      NewPageImpl (2 * s.replacer_.num_pages + 1) s = some (s, none)) ∧
    (s.free_list_ = [] → 0 < s.replacer_.clock_size →
      ∃ vf s₁ s₂, (s.replacer_.clock_replacer_list vf).isPin = false ∧
        FetchPageImpl (2 * s.replacer_.num_pages + 1) pid s = some (s₁, some vf) ∧
        NewPageImpl (2 * s.replacer_.num_pages + 1) s =
          some (s₂, some (s.disk_manager_.next_alloc, vf)) ∧
        s₁.disk_manager_.write_log =
          (if (s.pages_ vf).is_dirty_ = true then
            s.disk_manager_.write_log ++ [(s.pages_ vf).page_id_]
          else s.disk_manager_.write_log) ∧
        s₂.disk_manager_.write_log =
          (if (s.pages_ vf).is_dirty_ = true then
            s.disk_manager_.write_log ++ [(s.pages_ vf).page_id_]
          else s.disk_manager_.write_log)) := by
  obtain ⟨ps, pg, pt, fl, rp, dm⟩ := s
  replace hnr : pt pid = none := hnr
  replace hinv : rp.clock_size = countCandidates rp := hinv
  replace hres : ∀ fid, fid < rp.num_pages → (rp.clock_replacer_list fid).isPin = false →
      pt ((pg fid).page_id_) = some fid := hres
  refine ⟨?_, ?_, ?_⟩
  · intro f rest hfl
    replace hfl : fl = f :: rest := hfl
    subst hfl
    constructor
    · refine ⟨(fetchInstall pid ⟨ps, pg, pt, rest, rp, dm⟩ f).1, ?_, rfl, rfl, rfl⟩
      unfold FetchPageImpl
      dsimp only
      rw [hnr]
      rfl
    · refine ⟨(newInstall ⟨ps, pg, pt, rest, rp, dm⟩ f).1, ?_, rfl, rfl, rfl⟩
      unfold NewPageImpl
      dsimp only
      rfl
  · intro hfl h0
    replace hfl : fl = [] := hfl
    subst hfl
    replace h0 : rp.clock_size = 0 := h0
    have hv := victim_none rp (2 * rp.num_pages) h0
    constructor
    · unfold FetchPageImpl
      dsimp only
      rw [hnr, hv]
    · unfold NewPageImpl
      dsimp only
      rw [hv]
  · intro hfl hpos
    replace hfl : fl = [] := hfl
    subst hfl
    replace hpos : 0 < rp.clock_size := hpos
    rcases countCandidates_pos rp (hinv ▸ hpos) with ⟨c, hc, hp⟩
    rcases victim_aux _ rp c hpos hc hp (clockKey_lt _ c hc) with
      ⟨r', vf, hvic, hvf, hvfpin, hsel, hsz', hhand', hnum', hpins'⟩
    have hpt : pt ((pg vf).page_id_) = some vf := hres vf hvf hvfpin
    by_cases hd : (pg vf).is_dirty_ = true
    · have hlog : ((FlushPageImpl ((pg vf).page_id_)
          ⟨ps, pg, pt, [], r', dm⟩).1).disk_manager_.write_log =
          dm.write_log ++ [(pg vf).page_id_] :=
        flush_log_dirty _ _ vf hpt hd
      let S3 : BPMState :=
        { (FlushPageImpl ((pg vf).page_id_) ⟨ps, pg, pt, [], r', dm⟩).1 with
          page_table_ := fun q => if q = (pg vf).page_id_ then none
            else ((FlushPageImpl ((pg vf).page_id_) ⟨ps, pg, pt, [], r', dm⟩).1).page_table_ q }
      refine ⟨vf, (fetchInstall pid S3 vf).1, (newInstall S3 vf).1, hvfpin, ?_, ?_, ?_, ?_⟩
      · unfold FetchPageImpl
        dsimp only
        rw [hnr, hvic]
        dsimp only
        rw [if_pos hd]
        rfl
      · have hna : ((FlushPageImpl ((pg vf).page_id_)
            ⟨ps, pg, pt, [], r', dm⟩).1).disk_manager_.next_alloc = dm.next_alloc :=
          flush_next_alloc _ _
        unfold NewPageImpl
        dsimp only
        rw [hvic]
        dsimp only
        rw [if_pos hd, ← hna]
        rfl
      · rw [if_pos hd]
        exact hlog
      · rw [if_pos hd]
        exact hlog
    · let S3 : BPMState :=
        { (⟨ps, pg, pt, [], r', dm⟩ : BPMState) with
          page_table_ := fun q => if q = (pg vf).page_id_ then none
            else (⟨ps, pg, pt, [], r', dm⟩ : BPMState).page_table_ q }
      refine ⟨vf, (fetchInstall pid S3 vf).1, (newInstall S3 vf).1, hvfpin, ?_, ?_, ?_, ?_⟩
      · unfold FetchPageImpl
        dsimp only
        rw [hnr, hvic]
        dsimp only
        rw [if_neg hd]
        rfl
      · unfold NewPageImpl
        dsimp only
        rw [hvic]
        dsimp only
        rw [if_neg hd]
        rfl
      · rw [if_neg hd]
        rfl
      · rw [if_neg hd]
        rfl

/-- Witness for C7: on a fresh two-frame pool with free list [0, 1] and a
non-resident page id 5, both FetchPage and NewPage take frame 0 from the
front of the free list, leave the replacer untouched and write nothing to
disk. -/
theorem C7_frame_acquisition_witness :
    (∃ s₁, FetchPageImpl (2 * exBPM.replacer_.num_pages + 1) 5 exBPM = some (s₁, some 0) ∧
      s₁.replacer_ = exBPM.replacer_ ∧ s₁.free_list_ = [1] ∧
      s₁.disk_manager_.write_log = exBPM.disk_manager_.write_log) ∧
    (∃ s₂, NewPageImpl (2 * exBPM.replacer_.num_pages + 1) exBPM =
        some (s₂, some (exBPM.disk_manager_.next_alloc, 0)) ∧
      s₂.replacer_ = exBPM.replacer_ ∧ s₂.free_list_ = [1] ∧
      s₂.disk_manager_.write_log = exBPM.disk_manager_.write_log) :=
  (C7_frame_acquisition exBPM 5 rfl (by decide)
    (by intro fid h hp; simp [exBPM, ClockReplacer.init] at hp)).1 0 [1] rfl

theorem fetchHeaderPage_ok (s : HTState) (pid : Nat) (h : s.pool_ok = true) :
    fetchHeaderPage s pid = some (headerD s pid) := by
  simp [fetchHeaderPage, headerD, h]

theorem fetchBlockPage_ok (s : HTState) (pid : Nat) (h : s.pool_ok = true) :
    fetchBlockPage s pid = some (blockD s pid) := by
  simp [fetchBlockPage, blockD, h]

theorem newPage_ok (s : HTState) (h : s.pool_ok = true) :
    newPage s = some (s.next_page_id, { s with next_page_id := s.next_page_id + 1 }) := by
  simp [newPage, h]

theorem fetchHeaderPage_none (s : HTState) (pid : Nat) (h : s.pool_ok = false) :
    fetchHeaderPage s pid = none := by
  simp [fetchHeaderPage, h]

theorem newPage_none (s : HTState) (h : s.pool_ok = false) : newPage s = none := by
  simp [newPage, h]

theorem allocBlockPages_spec (n : Nat) : ∀ (s : HTState) (h : HeaderPage),
    s.pool_ok = true →
    (allocBlockPages s h n).1.pool_ok = s.pool_ok ∧
    (allocBlockPages s h n).1.next_page_id = s.next_page_id + n ∧
    (allocBlockPages s h n).1.headers = s.headers ∧
    (allocBlockPages s h n).1.header_page_id_ = s.header_page_id_ ∧
    (allocBlockPages s h n).1.hash_fn_ = s.hash_fn_ ∧
    (∀ q, q < s.next_page_id → (allocBlockPages s h n).1.blocks q = s.blocks q) ∧
    (allocBlockPages s h n).2.size_ = h.size_ ∧
    (allocBlockPages s h n).2.page_id_ = h.page_id_ ∧
    (allocBlockPages s h n).2.block_page_ids_ =
      h.block_page_ids_ ++ (List.range n).map (fun i => s.next_page_id + i) := by
  induction n with
  | zero =>
    intro s h _
    refine ⟨rfl, rfl, rfl, rfl, rfl, fun q _ => rfl, rfl, rfl, by simp [allocBlockPages]⟩
  | succ n ihn =>
    intro s h hok
    have e : allocBlockPages s h (n + 1) =
        allocBlockPages (setBlockPage { s with next_page_id := s.next_page_id + 1 }
          s.next_page_id zeroBlock) (h.AddBlockPageId s.next_page_id) n := by
      rw [allocBlockPages, newPage_ok s hok]
    rcases ihn (setBlockPage { s with next_page_id := s.next_page_id + 1 }
        s.next_page_id zeroBlock) (h.AddBlockPageId s.next_page_id) hok with
      ⟨p1, p2, p3, p4, p5, p6, p7, p8, p9⟩
    rw [e]
    refine ⟨p1, ?_, p3, p4, p5, ?_, p7, p8, ?_⟩
    · rw [p2]
      show s.next_page_id + 1 + n = s.next_page_id + (n + 1)
      omega
    · intro q hq
      rw [p6 q (by show q < s.next_page_id + 1; omega)]
      show (if q = s.next_page_id then some zeroBlock else s.blocks q) = s.blocks q
      rw [if_neg (by omega)]
    · rw [p9]
      show h.block_page_ids_ ++ [s.next_page_id] ++ _ = _
      rw [List.append_assoc]
      congr 1
      show s.next_page_id :: (List.range n).map (fun i => s.next_page_id + 1 + i) = _
      rw [List.range_succ_eq_map, List.map_cons, List.map_map]
      congr 1
      apply List.map_congr_left
      intro i _
      simp
      omega

theorem getValueLoop_no_null (BAS : Nat) : ∀ fuel s hdr len index bi bu bp key acc,
    s.pool_ok = true →
    getValueLoop BAS fuel s hdr len index bi bu bp key acc ≠ .error .nullDeref := by
  intro fuel
  induction fuel with
  | zero =>
    intro s hdr len index bi bu bp key acc hok
    simp [getValueLoop]
  | succ n ih =>
    intro s hdr len index bi bu bp key acc hok
    rw [getValueLoop]
    dsimp only
    split
    · split
      · simp
      · split
        · rw [fetchBlockPage_ok _ _ hok]
          exact ih _ _ _ _ _ _ _ _ _ hok
        · exact ih _ _ _ _ _ _ _ _ _ hok
    · simp

theorem GetValue_no_null (BAS fuel : Nat) (s : HTState) (key : Nat) (acc : List Nat)
    (hok : s.pool_ok = true) : GetValue BAS fuel s key acc ≠ .error .nullDeref := by
  rw [GetValue, fetchHeaderPage_ok _ _ hok]
  dsimp only
  rw [fetchBlockPage_ok _ _ hok]
  dsimp only
  rcases hl : getValueLoop BAS fuel s (headerD s s.header_page_id_)
      (headerD s s.header_page_id_).NumBlocks
      (s.hash_fn_ key % (BAS * (headerD s s.header_page_id_).NumBlocks))
      (s.hash_fn_ key % (BAS * (headerD s s.header_page_id_).NumBlocks) / BAS)
      (s.hash_fn_ key % (BAS * (headerD s s.header_page_id_).NumBlocks) % BAS)
      (blockD s ((headerD s s.header_page_id_).GetBlockPageId
        (s.hash_fn_ key % (BAS * (headerD s s.header_page_id_).NumBlocks) / BAS)))
      key acc with e | r
  · cases e
    · simp
    · exact absurd hl (getValueLoop_no_null BAS fuel s _ _ _ _ _ _ key acc hok)
  · simp

theorem removeLoop_no_null (BAS : Nat) : ∀ fuel s hdr len index bi bu key value,
    s.pool_ok = true →
    removeLoop BAS fuel s hdr len index bi bu key value ≠ .error .nullDeref := by
  intro fuel
  induction fuel with
  | zero =>
    intro s hdr len index bi bu key value hok
    simp [removeLoop]
  | succ n ih =>
    intro s hdr len index bi bu key value hok
    rw [removeLoop]
    dsimp only
    rw [fetchBlockPage_ok _ _ hok]
    dsimp only
    split
    · split
      · split <;> simp
      · split
        · simp
        · split
          · exact ih _ _ _ _ _ _ _ _ hok
          · exact ih _ _ _ _ _ _ _ _ hok
    · simp

theorem Remove_no_null (BAS fuel : Nat) (s : HTState) (key value : Nat)
    (hok : s.pool_ok = true) : Remove BAS fuel s key value ≠ .error .nullDeref := by
  rw [Remove, fetchHeaderPage_ok _ _ hok]
  dsimp only
  exact removeLoop_no_null BAS fuel s _ _ _ _ _ key value hok

theorem migrateBuckets_pool (ins : HTState → Nat → Nat → Except Err (HTState × Bool))
    (Hnull : ∀ s k v, s.pool_ok = true → ins s k v ≠ .error .nullDeref)
    (Hpool : ∀ s k v r, s.pool_ok = true → ins s k v = .ok r → r.1.pool_ok = true)
    (bid : Nat) : ∀ count bu s, s.pool_ok = true →
    migrateBuckets ins bid count bu s ≠ .error .nullDeref ∧
    ∀ t, migrateBuckets ins bid count bu s = .ok t → t.pool_ok = true := by
  intro count
  induction count with
  | zero =>
    intro bu s hok
    constructor
    · simp [migrateBuckets]
    · intro t ht
      rw [migrateBuckets] at ht
      cases ht
      exact hok
  | succ n ih =>
    intro bu s hok
    rw [migrateBuckets, fetchBlockPage_ok _ _ hok]
    dsimp only
    split
    · rcases hins : ins s ((blockD s bid).KeyAt bu) ((blockD s bid).ValueAt bu) with e | r
      · cases e
        · exact ⟨by simp, by simp⟩
        · exact absurd hins (Hnull s ((blockD s bid).KeyAt bu) ((blockD s bid).ValueAt bu) hok)
      · exact ih (bu + 1) r.1 (Hpool s _ _ r hok hins)
    · exact ih (bu + 1) s hok

theorem migrateBlocks_pool (BAS : Nat) (ins : HTState → Nat → Nat → Except Err (HTState × Bool))
    (Hnull : ∀ s k v, s.pool_ok = true → ins s k v ≠ .error .nullDeref)
    (Hpool : ∀ s k v r, s.pool_ok = true → ins s k v = .ok r → r.1.pool_ok = true)
    (old_ht : HeaderPage) : ∀ count bi s, s.pool_ok = true →
    migrateBlocks BAS ins old_ht count bi s ≠ .error .nullDeref ∧
    ∀ t, migrateBlocks BAS ins old_ht count bi s = .ok t → t.pool_ok = true := by
  intro count
  induction count with
  | zero =>
    intro bi s hok
    constructor
    · simp [migrateBlocks]
    · intro t ht
      rw [migrateBlocks] at ht
      cases ht
      exact hok
  | succ n ih =>
    intro bi s hok
    rw [migrateBlocks]
    rcases hmb : migrateBuckets ins (old_ht.GetBlockPageId bi) BAS 0 s with e | s'
    · rcases migrateBuckets_pool ins Hnull Hpool (old_ht.GetBlockPageId bi) BAS 0 s hok with
        ⟨hn, _⟩
      cases e
      · exact ⟨by simp, by simp⟩
      · exact absurd hmb (by simp [hn])
    · rcases migrateBuckets_pool ins Hnull Hpool (old_ht.GetBlockPageId bi) BAS 0 s hok with
        ⟨_, hp⟩
      exact ih (bi + 1) (deletePage s' (old_ht.GetBlockPageId bi)) (hp s' hmb)

theorem pool_setHeaderPage (s : HTState) (pid : Nat) (h : HeaderPage) :
    (setHeaderPage s pid h).pool_ok = s.pool_ok := rfl

theorem pool_setBlockPage (s : HTState) (pid : Nat) (b : BlockPage) :
    (setBlockPage s pid b).pool_ok = s.pool_ok := rfl

theorem pool_deletePage (s : HTState) (pid : Nat) :
    (deletePage s pid).pool_ok = s.pool_ok := rfl

theorem pool_allocBlockPages : ∀ (n : Nat) (s : HTState) (h : HeaderPage),
    (allocBlockPages s h n).1.pool_ok = s.pool_ok := by
  intro n
  induction n with
  | zero => intro s h; rfl
  | succ n ih =>
    intro s h
    rw [allocBlockPages]
    rcases hnp : newPage s with _ | p
    · exact ih s _
    · have hp : p.2.pool_ok = s.pool_ok := by
        unfold newPage at hnp
        split at hnp
        · cases hnp; rfl
        · exact Option.noConfusion hnp
      rw [← hp]
      exact ih _ _

theorem insert_cluster_pool (BAS : Nat) : ∀ fuel,
    (∀ s k v, s.pool_ok = true → insertGo BAS fuel s k v ≠ .error .nullDeref ∧
      ∀ r, insertGo BAS fuel s k v = .ok r → r.1.pool_ok = true) ∧
    (∀ s hdr len index bi bu k v, s.pool_ok = true →
      insertLoop BAS fuel s hdr len index bi bu k v ≠ .error .nullDeref ∧
      ∀ r, insertLoop BAS fuel s hdr len index bi bu k v = .ok r → r.1.pool_ok = true) ∧
    (∀ s n, s.pool_ok = true → Resize BAS fuel s n ≠ .error .nullDeref ∧
      ∀ t, Resize BAS fuel s n = .ok t → t.pool_ok = true) := by
  intro fuel
  induction fuel using Nat.strong_induction_on with
  | _ fuel ih =>
    rcases fuel with _ | fuel
    · refine ⟨?_, ?_, ?_⟩
      · intro s k v _
        exact ⟨by simp [insertGo], fun r hr => absurd hr (by simp [insertGo])⟩
      · intro s hdr len index bi bu k v _
        exact ⟨by simp [insertLoop], fun r hr => absurd hr (by simp [insertLoop])⟩
      · intro s n _
        exact ⟨by simp [Resize], fun t ht => absurd ht (by simp [Resize])⟩
    · have Pgo := (ih fuel (by omega)).1
      have Ploop := (ih fuel (by omega)).2.1
      have Prsz := (ih fuel (by omega)).2.2
      refine ⟨?_, ?_, ?_⟩
      · intro s k v hok
        rw [insertGo, fetchHeaderPage_ok _ _ hok]
        dsimp only
        exact Ploop s _ _ _ _ _ k v hok
      · intro s hdr len index bi bu k v hok
        rw [insertLoop]
        dsimp only
        rw [fetchBlockPage_ok _ _ hok]
        dsimp only
        split
        · exact ⟨by simp, fun r hr => by cases hr; exact hok⟩
        · split
          · exact ⟨by simp, fun r hr => by cases hr; exact hok⟩
          · split
            · rcases hr : Resize BAS fuel s (len * BAS) with e | s'
              · cases e
                · exact ⟨by simp, fun r h => absurd h (by simp)⟩
                · exact absurd hr (Prsz s _ hok).1
              · exact Pgo s' k v ((Prsz s _ hok).2 s' hr)
            · split
              · exact Ploop s hdr len index _ 0 k v hok
              · exact Ploop s hdr len index bi _ k v hok
      · intro s n hok
        rw [Resize]
        dsimp only
        rw [newPage_ok _ hok]
        dsimp only
        have hp3 : ∀ h₂ : HeaderPage,
            (setHeaderPage (allocBlockPages { s with next_page_id := s.next_page_id + 1 }
              { page_id_ := s.next_page_id, size_ := n * 2 / BAS, block_page_ids_ := [] }
              (n * 2 / BAS)).1 s.next_page_id h₂).pool_ok = true := by
          intro h₂
          rw [pool_setHeaderPage, pool_allocBlockPages]
          exact hok
        rw [fetchHeaderPage_ok _ _ (hp3 _)]
        dsimp only
        have Hnull : ∀ t k v, t.pool_ok = true →
            insertGo BAS fuel t k v ≠ .error .nullDeref := fun t k v h => (Pgo t k v h).1
        have Hpool : ∀ t k v r, t.pool_ok = true →
            insertGo BAS fuel t k v = .ok r → r.1.pool_ok = true :=
          fun t k v r h hr => (Pgo t k v h).2 r hr
        constructor
        · split
          next e heq =>
            cases e
            · simp
            · exact absurd heq
                (migrateBlocks_pool BAS (insertGo BAS fuel) Hnull Hpool _ _ 0 _ (hp3 _)).1
          next s₄ heq => simp
        · intro t ht
          split at ht
          · exact Except.noConfusion ht
          next s₄ heq =>
            cases ht
            rw [pool_deletePage]
            exact (migrateBlocks_pool BAS (insertGo BAS fuel) Hnull Hpool _ _ 0 _ (hp3 _)).2
              s₄ heq

theorem construct_no_null (s : HTState) (num_buckets : Nat) (hok : s.pool_ok = true) :
    construct s num_buckets ≠ .error .nullDeref := by
  rw [construct, newPage_ok _ hok]
  simp

theorem GetSize_no_null (BAS : Nat) (s : HTState) (hok : s.pool_ok = true) :
    GetSize BAS s ≠ .error .nullDeref := by
  rw [GetSize, fetchHeaderPage_ok _ _ hok]
  simp

/-- C9: every page pointer obtained from the buffer pool is dereferenced
without a null check, so every hash-table operation carries the
precondition that the pool always yields a frame.  Formally: when the pool
can supply frames, no operation ever reaches the null dereference; when it
cannot, the constructor, GetValue, Insert, Remove, Resize and GetSize all
hit the null dereference at their first page access. -/
theorem C9_null_safety (BAS : Nat) :
    (∀ s : HTState, s.pool_ok = true →
      (∀ fuel key acc, GetValue BAS fuel s key acc ≠ .error .nullDeref) ∧
      (∀ fuel key value, insertGo BAS fuel s key value ≠ .error .nullDeref) ∧
      (∀ fuel key value, Remove BAS fuel s key value ≠ .error .nullDeref) ∧
      (∀ fuel n, Resize BAS fuel s n ≠ .error .nullDeref) ∧
      (∀ n, construct s n ≠ .error .nullDeref) ∧
      GetSize BAS s ≠ .error .nullDeref) ∧
    (∀ s : HTState, s.pool_ok = false →
      (∀ fuel key acc, GetValue BAS fuel s key acc = .error .nullDeref) ∧
      (∀ fuel key value, insertGo BAS (fuel + 1) s key value = .error .nullDeref) ∧
      (∀ fuel key value, Remove BAS fuel s key value = .error .nullDeref) ∧
      (∀ fuel n, Resize BAS (fuel + 1) s n = .error .nullDeref) ∧
      (∀ n, construct s n = .error .nullDeref) ∧
      GetSize BAS s = .error .nullDeref) := by
  constructor
  · intro s hok
    refine ⟨?_, ?_, ?_, ?_, ?_, ?_⟩
    · intro fuel key acc
      exact GetValue_no_null BAS fuel s key acc hok
    · intro fuel key value
      exact ((insert_cluster_pool BAS fuel).1 s key value hok).1
    · intro fuel key value
      exact Remove_no_null BAS fuel s key value hok
    · intro fuel n
      exact ((insert_cluster_pool BAS fuel).2.2 s n hok).1
    · intro n
      exact construct_no_null s n hok
    · exact GetSize_no_null BAS s hok
  · intro s hbad
    refine ⟨?_, ?_, ?_, ?_, ?_, ?_⟩
    · intro fuel key acc
      rw [GetValue, fetchHeaderPage_none _ _ hbad]
    · intro fuel key value
      rw [insertGo, fetchHeaderPage_none _ _ hbad]
    · intro fuel key value
      rw [Remove, fetchHeaderPage_none _ _ hbad]
    · intro fuel n
      rw [Resize]
      dsimp only
      rw [newPage_none _ hbad]
    · intro n
      rw [construct, newPage_none _ hbad]
    · rw [GetSize, fetchHeaderPage_none _ _ hbad]

/-- Witness for C9: on a concrete table with a working pool GetValue does
not hit the null dereference, and on the same table with an exhausted pool
it does. -/
theorem C9_null_safety_witness :
    GetValue 4 3 exStateE 0 [] ≠ .error .nullDeref ∧
    GetValue 4 3 exStateBad 0 [] = .error .nullDeref :=
  ⟨((C9_null_safety 4).1 exStateE rfl).1 3 0 [],
   ((C9_null_safety 4).2 exStateBad rfl).1 3 0 []⟩

theorem probePos_lt (cap index t : Nat) (hc : 0 < cap) : probePos cap index t < cap :=
  Nat.mod_lt _ hc

theorem probePos_zero (cap index : Nat) (h : index < cap) : probePos cap index 0 = index :=
  Nat.mod_eq_of_lt h

theorem probePos_succ (cap index t : Nat) :
    probePos cap index (t + 1) = (probePos cap index t + 1) % cap := by
  unfold probePos
  rw [Nat.mod_add_mod, ← Nat.add_assoc]

theorem probePos_mod (cap index t : Nat) :
    probePos cap index t = probePos cap index (t % cap) := by
  unfold probePos
  conv_rhs => rw [Nat.add_mod, Nat.mod_mod_of_dvd t (dvd_refl cap)]
  rw [← Nat.add_mod]

theorem probePos_inj (cap index j t : Nat) (hj : j < cap) (ht : t < cap)
    (h : probePos cap index j = probePos cap index t) : j = t := by
  have h' : j ≡ t [MOD cap] := Nat.ModEq.add_left_cancel' index h
  rw [Nat.ModEq, Nat.mod_eq_of_lt hj, Nat.mod_eq_of_lt ht] at h'
  exact h'

theorem probePos_succ_ne_index (cap index t : Nat) (hidx : index < cap) (ht : t + 1 < cap) :
    probePos cap index t + 1 ≠ index := by
  unfold probePos
  rcases Nat.lt_or_ge (index + t) cap with h | h
  · rw [Nat.mod_eq_of_lt h]
    omega
  · have h2 : index + t - cap < cap := by omega
    rw [Nat.mod_eq_sub_mod h, Nat.mod_eq_of_lt h2]
    omega

theorem posDivMod (BAS bi bu p : Nat) (hBAS : 0 < BAS) (hbu : bu < BAS)
    (hp : bi * BAS + bu = p) : p / BAS = bi ∧ p % BAS = bu := by
  subst hp
  constructor
  · rw [Nat.add_comm, Nat.mul_comm bi BAS, Nat.add_mul_div_left bu bi hBAS,
      Nat.div_eq_of_lt hbu]
    exact Nat.zero_add bi
  · rw [Nat.add_comm, Nat.mul_comm bi BAS, Nat.add_mul_mod_self_left, Nat.mod_eq_of_lt hbu]

theorem readAt_eq (BAS : Nat) (s : HTState) (hdr : HeaderPage) (bi bu p : Nat)
    (hBAS : 0 < BAS) (hbu : bu < BAS) (hp : bi * BAS + bu = p) :
    readAt BAS s hdr p = (blockD s (hdr.GetBlockPageId bi)).IsReadable bu := by
  rcases posDivMod BAS bi bu p hBAS hbu hp with ⟨hd, hm⟩
  unfold readAt slotBlock
  rw [hd, hm]

theorem keyAt_eq (BAS : Nat) (s : HTState) (hdr : HeaderPage) (bi bu p : Nat)
    (hBAS : 0 < BAS) (hbu : bu < BAS) (hp : bi * BAS + bu = p) :
    keyAt BAS s hdr p = (blockD s (hdr.GetBlockPageId bi)).KeyAt bu := by
  rcases posDivMod BAS bi bu p hBAS hbu hp with ⟨hd, hm⟩
  unfold keyAt slotBlock
  rw [hd, hm]

theorem valAt_eq (BAS : Nat) (s : HTState) (hdr : HeaderPage) (bi bu p : Nat)
    (hBAS : 0 < BAS) (hbu : bu < BAS) (hp : bi * BAS + bu = p) :
    valAt BAS s hdr p = (blockD s (hdr.GetBlockPageId bi)).ValueAt bu := by
  rcases posDivMod BAS bi bu p hBAS hbu hp with ⟨hd, hm⟩
  unfold valAt slotBlock
  rw [hd, hm]

theorem blockInsert_fail (b : BlockPage) (i k v : Nat) (h : b.IsReadable i = true) :
    b.Insert i k v = (b, false) := by
  unfold BlockPage.Insert
  rw [h]
  rfl

theorem blockInsert_snd_true (b : BlockPage) (i k v : Nat)
    (h : (b.Insert i k v).2 = true) : b.IsReadable i = false := by
  cases hr : b.IsReadable i
  · rfl
  · rw [blockInsert_fail b i k v hr] at h
    exact absurd h (by simp)

theorem blockInsert_snd_false (b : BlockPage) (i k v : Nat)
    (h : (b.Insert i k v).2 = false) : b.IsReadable i = true := by
  cases hr : b.IsReadable i
  · unfold BlockPage.Insert at h
    rw [hr] at h
    exact absurd h (by simp)
  · rfl

theorem blockInsert_self (b : BlockPage) (i k v : Nat) (h : b.IsReadable i = false) :
    (b.Insert i k v).1.IsReadable i = true ∧ (b.Insert i k v).1.KeyAt i = k ∧
    (b.Insert i k v).1.ValueAt i = v := by
  unfold BlockPage.Insert
  rw [h]
  refine ⟨?_, ?_, ?_⟩ <;> simp [BlockPage.IsReadable, BlockPage.KeyAt, BlockPage.ValueAt]

theorem blockInsert_other (b : BlockPage) (i k v j : Nat) (hj : j ≠ i) :
    (b.Insert i k v).1.IsReadable j = b.IsReadable j ∧
    (b.Insert i k v).1.KeyAt j = b.KeyAt j ∧
    (b.Insert i k v).1.ValueAt j = b.ValueAt j := by
  unfold BlockPage.Insert
  cases hr : b.IsReadable i
  · refine ⟨?_, ?_, ?_⟩ <;>
      simp [BlockPage.IsReadable, BlockPage.KeyAt, BlockPage.ValueAt, hj]
  · exact ⟨rfl, rfl, rfl⟩

theorem blockD_setBlock_self (s : HTState) (pid : Nat) (b : BlockPage) :
    blockD (setBlockPage s pid b) pid = b := by
  unfold blockD setBlockPage
  simp

theorem blockD_setBlock_other (s : HTState) (pid q : Nat) (b : BlockPage) (h : q ≠ pid) :
    blockD (setBlockPage s pid b) q = blockD s q := by
  unfold blockD setBlockPage
  simp [h]

theorem getD_mem_of_lt (l : List Nat) (i : Nat) (h : i < l.length) : l.getD i 0 ∈ l := by
  induction l generalizing i with
  | nil => simp at h
  | cons a l ih =>
    cases i with
    | zero => exact List.mem_cons_self a l
    | succ i => exact List.mem_cons_of_mem a (ih i (by simpa using h))

theorem nodup_getD_inj (l : List Nat) (hn : l.Nodup) (i j : Nat) (hi : i < l.length)
    (hj : j < l.length) (h : l.getD i 0 = l.getD j 0) : i = j := by
  induction l generalizing i j with
  | nil => simp at hi
  | cons a l ih =>
    rcases List.nodup_cons.mp hn with ⟨ha, hl⟩
    cases i with
    | zero =>
      cases j with
      | zero => rfl
      | succ j =>
        exfalso
        apply ha
        rw [show (a :: l).getD 0 0 = a from rfl] at h
        rw [h]
        exact getD_mem_of_lt l j (by simpa using hj)
    | succ i =>
      cases j with
      | zero =>
        exfalso
        apply ha
        rw [show (a :: l).getD 0 0 = a from rfl] at h
        rw [← h]
        exact getD_mem_of_lt l i (by simpa using hi)
      | succ j =>
        have := ih hl i j (by simpa using hi) (by simpa using hj) (by simpa using h)
        omega

theorem dupFound_loop (BAS len index k v : Nat) (s : HTState) (hdr : HeaderPage)
    (hBAS : 0 < BAS) (hlen : 0 < len) (hidx : index < BAS * len) (hok : s.pool_ok = true) :
    ∀ d T bi bu fuel, bi < len → bu < BAS →
      bi * BAS + bu = probePos (BAS * len) index T →
      T + d < BAS * len →
      (∀ j, j < d → readAt BAS s hdr (probePos (BAS * len) index (T + j)) = true ∧
        ¬(keyAt BAS s hdr (probePos (BAS * len) index (T + j)) = k ∧
          valAt BAS s hdr (probePos (BAS * len) index (T + j)) = v)) →
      readAt BAS s hdr (probePos (BAS * len) index (T + d)) = true →
      keyAt BAS s hdr (probePos (BAS * len) index (T + d)) = k →
      valAt BAS s hdr (probePos (BAS * len) index (T + d)) = v →
      d + 1 ≤ fuel →
      insertLoop BAS fuel s hdr len index bi bu k v = .ok (s, false) := by
  intro d
  induction d with
  | zero =>
    intro T bi bu fuel hbi hbu hp hT run dupR dupK dupV hfuel
    cases fuel with
    | zero => omega
    | succ m =>
      rw [insertLoop]
      dsimp only
      rw [fetchBlockPage_ok s _ hok]
      dsimp only
      rw [Nat.add_zero T] at dupR dupK dupV
      rw [readAt_eq BAS s hdr bi bu _ hBAS hbu hp] at dupR
      rw [keyAt_eq BAS s hdr bi bu _ hBAS hbu hp] at dupK
      rw [valAt_eq BAS s hdr bi bu _ hBAS hbu hp] at dupV
      rw [blockInsert_fail _ bu k v dupR]
      rw [if_neg (by simp)]
      rw [if_pos (by simp only [Bool.and_eq_true, beq_iff_eq]; exact ⟨dupK, dupV⟩)]
  | succ d ih =>
    intro T bi bu fuel hbi hbu hp hT run dupR dupK dupV hfuel
    cases fuel with
    | zero => omega
    | succ m =>
      rw [insertLoop]
      dsimp only
      rw [fetchBlockPage_ok s _ hok]
      dsimp only
      rcases run 0 (by omega) with ⟨curR, curKV⟩
      rw [Nat.add_zero T] at curR curKV
      rw [readAt_eq BAS s hdr bi bu _ hBAS hbu hp] at curR
      rw [keyAt_eq BAS s hdr bi bu _ hBAS hbu hp] at curKV
      rw [valAt_eq BAS s hdr bi bu _ hBAS hbu hp] at curKV
      rw [blockInsert_fail _ bu k v curR]
      rw [if_neg (by simp)]
      rw [if_neg (by simp only [Bool.and_eq_true, beq_iff_eq]; exact curKV)]
      have hne := probePos_succ_ne_index (BAS * len) index T hidx (by omega)
      rw [if_neg (show ¬((bu + 1 + bi * BAS == index) = true) by
        simp only [beq_iff_eq]; omega)]
      have hsucc := probePos_succ (BAS * len) index T
      have run' : ∀ j, j < d →
          readAt BAS s hdr (probePos (BAS * len) index (T + 1 + j)) = true ∧
          ¬(keyAt BAS s hdr (probePos (BAS * len) index (T + 1 + j)) = k ∧
            valAt BAS s hdr (probePos (BAS * len) index (T + 1 + j)) = v) := by
        intro j hj
        have e : T + (j + 1) = T + 1 + j := by omega
        have := run (j + 1) (by omega)
        rw [e] at this
        exact this
      have edup : T + (d + 1) = T + 1 + d := by omega
      rw [edup] at dupR dupK dupV
      by_cases hsw : bu + 1 = BAS
      · rw [if_pos (by simp only [beq_iff_eq]; exact hsw)]
        have hp' : ((bi + 1) % len) * BAS + 0 = probePos (BAS * len) index (T + 1) := by
          rw [hsucc, ← hp]
          have e2 : bi * BAS + bu + 1 = BAS * (bi + 1) := by
            rw [Nat.mul_add, Nat.mul_one, Nat.mul_comm BAS bi]
            omega
          rw [e2, Nat.mul_mod_mul_left BAS (bi + 1) len, Nat.add_zero, Nat.mul_comm]
        exact ih (T + 1) ((bi + 1) % len) 0 m (Nat.mod_lt _ hlen) hBAS hp' (by omega)
          run' dupR dupK dupV (by omega)
      · rw [if_neg (by simp only [beq_iff_eq]; exact hsw)]
        have hp' : bi * BAS + (bu + 1) = probePos (BAS * len) index (T + 1) := by
          rw [hsucc, ← hp]
          have h3 : (bi + 1) * BAS ≤ len * BAS := Nat.mul_le_mul_right BAS (by omega)
          have h4 : (bi + 1) * BAS = bi * BAS + BAS := by rw [Nat.add_mul, Nat.one_mul]
          rw [Nat.mod_eq_of_lt (by rw [Nat.mul_comm BAS len]; omega)]
          omega
        exact ih (T + 1) bi (bu + 1) m hbi (by omega) hp' (by omega)
          run' dupR dupK dupV (by omega)

theorem dupFound_go (BAS : Nat) (s : HTState) (hdr : HeaderPage) (k v d : Nat)
    (hBAS : 0 < BAS) (hok : s.pool_ok = true)
    (hhdr : s.headers s.header_page_id_ = some hdr) (hlen : 0 < hdr.NumBlocks)
    (hd : d < BAS * hdr.NumBlocks)
    (run : ∀ j, j < d →
      readAt BAS s hdr
          (probePos (BAS * hdr.NumBlocks) (s.hash_fn_ k % (BAS * hdr.NumBlocks)) j) = true ∧
      ¬(keyAt BAS s hdr
          (probePos (BAS * hdr.NumBlocks) (s.hash_fn_ k % (BAS * hdr.NumBlocks)) j) = k ∧
        valAt BAS s hdr
          (probePos (BAS * hdr.NumBlocks) (s.hash_fn_ k % (BAS * hdr.NumBlocks)) j) = v))
    (dupR : readAt BAS s hdr
        (probePos (BAS * hdr.NumBlocks) (s.hash_fn_ k % (BAS * hdr.NumBlocks)) d) = true)
    (dupK : keyAt BAS s hdr
        (probePos (BAS * hdr.NumBlocks) (s.hash_fn_ k % (BAS * hdr.NumBlocks)) d) = k)
    (dupV : valAt BAS s hdr
        (probePos (BAS * hdr.NumBlocks) (s.hash_fn_ k % (BAS * hdr.NumBlocks)) d) = v) :
    ∀ fuel, d + 2 ≤ fuel → insertGo BAS fuel s k v = .ok (s, false) := by
  intro fuel hfuel
  cases fuel with
  | zero => omega
  | succ m =>
    rw [insertGo]
    dsimp only
    rw [fetchHeaderPage_ok s _ hok]
    have hD : headerD s s.header_page_id_ = hdr := by rw [headerD, hhdr]; rfl
    dsimp only
    rw [hD]
    have hcap : 0 < BAS * hdr.NumBlocks := Nat.mul_pos hBAS hlen
    have hidx : s.hash_fn_ k % (BAS * hdr.NumBlocks) < BAS * hdr.NumBlocks :=
      Nat.mod_lt _ hcap
    have hp : (s.hash_fn_ k % (BAS * hdr.NumBlocks) / BAS) * BAS +
        s.hash_fn_ k % (BAS * hdr.NumBlocks) % BAS =
        probePos (BAS * hdr.NumBlocks) (s.hash_fn_ k % (BAS * hdr.NumBlocks)) 0 := by
      rw [probePos_zero _ _ hidx, Nat.mul_comm, Nat.div_add_mod]
    have hbi : s.hash_fn_ k % (BAS * hdr.NumBlocks) / BAS < hdr.NumBlocks := by
      rw [Nat.div_lt_iff_lt_mul hBAS, Nat.mul_comm hdr.NumBlocks BAS]
      exact hidx
    have run' : ∀ j, j < d →
        readAt BAS s hdr
            (probePos (BAS * hdr.NumBlocks) (s.hash_fn_ k % (BAS * hdr.NumBlocks)) (0 + j)) =
          true ∧
        ¬(keyAt BAS s hdr
            (probePos (BAS * hdr.NumBlocks) (s.hash_fn_ k % (BAS * hdr.NumBlocks)) (0 + j)) =
            k ∧
          valAt BAS s hdr
            (probePos (BAS * hdr.NumBlocks) (s.hash_fn_ k % (BAS * hdr.NumBlocks)) (0 + j)) =
            v) := by
      intro j hj
      rw [Nat.zero_add]
      exact run j hj
    refine dupFound_loop BAS hdr.NumBlocks _ k v s hdr hBAS hlen hidx hok d 0 _ _ m hbi
      (Nat.mod_lt _ hBAS) hp (by omega) run' ?_ ?_ ?_ (by omega)
    · rw [Nat.zero_add]; exact dupR
    · rw [Nat.zero_add]; exact dupK
    · rw [Nat.zero_add]; exact dupV

theorem deletePage_fields (S : HTState) (bid : Nat) :
    (deletePage S bid).header_page_id_ = S.header_page_id_ ∧
    (deletePage S bid).next_page_id = S.next_page_id ∧
    (deletePage S bid).pool_ok = S.pool_ok ∧
    (deletePage S bid).hash_fn_ = S.hash_fn_ :=
  ⟨rfl, rfl, rfl, rfl⟩

theorem deletePage_headers (S : HTState) (bid q : Nat) :
    (deletePage S bid).headers q = if q = bid then none else S.headers q := rfl

theorem deletePage_blocks (S : HTState) (bid q : Nat) :
    (deletePage S bid).blocks q = if q = bid then none else S.blocks q := rfl

theorem setBlockPage_headers (S : HTState) (bid : Nat) (b : BlockPage) (q : Nat) :
    (setBlockPage S bid b).headers q = S.headers q := rfl

theorem setBlockPage_blocks (S : HTState) (bid : Nat) (b : BlockPage) (q : Nat) :
    (setBlockPage S bid b).blocks q = if q = bid then some b else S.blocks q := rfl

theorem setHeaderPage_headers (S : HTState) (pid : Nat) (h : HeaderPage) (q : Nat) :
    (setHeaderPage S pid h).headers q = if q = pid then some h else S.headers q := rfl

theorem InsPres_refl (s : HTState) (h : WF s) : InsPres s s :=
  ⟨h, Nat.le_refl _, rfl, rfl, Or.inl rfl, fun _ hP => ⟨hP, rfl, rfl⟩⟩

theorem InsPres_trans (a b c : HTState) (h1 : InsPres a b) (h2 : InsPres b c) :
    InsPres a c := by
  obtain ⟨hWb, hle1, hpool1, hhash1, hhid1, hfr1⟩ := h1
  obtain ⟨hWc, hle2, hpool2, hhash2, hhid2, hfr2⟩ := h2
  refine ⟨hWc, Nat.le_trans hle1 hle2, by rw [hpool2, hpool1], by rw [hhash2, hhash1], ?_, ?_⟩
  · rcases hhid2 with h | h
    · rcases hhid1 with h' | h'
      · exact Or.inl (h.trans h')
      · exact Or.inr (h ▸ h')
    · exact Or.inr (Nat.le_trans hle1 h)
  · intro P hP
    rcases hfr1 P hP with ⟨hPb, hH1, hB1⟩
    rcases hfr2 P hPb with ⟨hPc, hH2, hB2⟩
    exact ⟨hPc, hH2.trans hH1, hB2.trans hB1⟩

theorem Pres_delete (s₃ S : HTState) (h₃ : HeaderPage) (bid : Nat)
    (hWF3c : s₃.headers s₃.header_page_id_ = some h₃)
    (hwfh3 : WFhdr s₃ h₃)
    (hmem : bid ∈ h₃.block_page_ids_)
    (h : InsPres s₃ S) : InsPres s₃ (deletePage S bid) := by
  obtain ⟨hWFS, hle, hpool, hhash, hhid, hfr⟩ := h
  obtain ⟨hpoolS, hboundS, hS, hhS, hwfhS⟩ := hWFS
  have hbidnext : bid < s₃.next_page_id := hwfh3.2.2.2.1 bid hmem
  have hbidhid : bid ≠ s₃.header_page_id_ := fun e => hwfh3.2.2.2.2 (e ▸ hmem)
  have hShid : S.header_page_id_ ≠ bid := by
    rcases hhid with h | h
    · rw [h]; exact fun e => hbidhid e.symm
    · omega
  refine ⟨⟨hpoolS, hboundS, hS, ?_, hwfhS⟩, hle, hpool, hhash, hhid, ?_⟩
  · show (if S.header_page_id_ = bid then none else S.headers S.header_page_id_) = some hS
    rw [if_neg hShid]
    exact hhS
  · intro P hP
    rcases hfr P hP with ⟨hPS, hH, hB⟩
    have hD3 : headerD s₃ s₃.header_page_id_ = h₃ := by rw [headerD, hWF3c]; rfl
    have hbidP : bid ≠ P := hP.2.2 bid (by rw [hD3]; exact hmem)
    have hDS : headerD (deletePage S bid) S.header_page_id_ =
        headerD S S.header_page_id_ := by
      rw [headerD, headerD, deletePage_headers, if_neg hShid]
    refine ⟨⟨hPS.1, hPS.2.1, ?_⟩, ?_, ?_⟩
    · intro q hq
      exact hPS.2.2 q (by rwa [show (deletePage S bid).header_page_id_ = S.header_page_id_
        from rfl, hDS] at hq)
    · rw [deletePage_headers, if_neg (fun e => hbidP e.symm)]
      exact hH
    · rw [deletePage_blocks, if_neg (fun e => hbidP e.symm)]
      exact hB

theorem migrateBuckets_pres (ins : HTState → Nat → Nat → Except Err (HTState × Bool))
    (Hins : ∀ t k v r, WF t → ins t k v = .ok r → InsPres t r.1)
    (s₃ : HTState) (hpool3 : s₃.pool_ok = true) (bid : Nat) :
    ∀ count bu S S', InsPres s₃ S → migrateBuckets ins bid count bu S = .ok S' →
      InsPres s₃ S' := by
  intro count
  induction count with
  | zero =>
    intro bu S S' hpre h
    rw [migrateBuckets] at h
    rw [Except.ok.injEq] at h
    exact h ▸ hpre
  | succ n ih =>
    intro bu S S' hpre h
    have hokS : S.pool_ok = true := by rw [hpre.2.2.1, hpool3]
    rw [migrateBuckets] at h
    rw [fetchBlockPage_ok S bid hokS] at h
    dsimp only at h
    split at h
    · split at h
      · exact Except.noConfusion h
      · rename_i s' b heq
        exact ih (bu + 1) s' S'
          (InsPres_trans _ _ _ hpre (Hins S _ _ (s', b) hpre.1 heq)) h
    · exact ih (bu + 1) S S' hpre h

theorem migrateBlocks_pres (BAS : Nat)
    (ins : HTState → Nat → Nat → Except Err (HTState × Bool))
    (Hins : ∀ t k v r, WF t → ins t k v = .ok r → InsPres t r.1)
    (s₃ : HTState) (h₃ : HeaderPage) (hpool3 : s₃.pool_ok = true)
    (hWF3c : s₃.headers s₃.header_page_id_ = some h₃) (hwfh3 : WFhdr s₃ h₃) :
    ∀ count bi S S', bi + count ≤ h₃.block_page_ids_.length →
      InsPres s₃ S →
      migrateBlocks BAS ins h₃ count bi S = .ok S' → InsPres s₃ S' := by
  intro count
  induction count with
  | zero =>
    intro bi S S' _ hpre h
    rw [migrateBlocks] at h
    rw [Except.ok.injEq] at h
    exact h ▸ hpre
  | succ n ih =>
    intro bi S S' hcnt hpre h
    rw [migrateBlocks] at h
    split at h
    · exact Except.noConfusion h
    · rename_i s' heq
      have hmid : InsPres s₃ s' :=
        migrateBuckets_pres ins Hins s₃ hpool3 _ BAS 0 S s' hpre heq
      have hmem : h₃.GetBlockPageId bi ∈ h₃.block_page_ids_ :=
        getD_mem_of_lt _ bi (by omega)
      exact ih (bi + 1) _ S' (by omega)
        (Pres_delete s₃ s' h₃ _ hWF3c hwfh3 hmem hmid) h

theorem Resize_pres_step (BAS fuel : Nat)
    (Hins : ∀ t k v r, WF t → insertGo BAS fuel t k v = .ok r → InsPres t r.1) :
    ∀ s n t, WF s → 0 < n * 2 / BAS → Resize BAS (fuel + 1) s n = .ok t → InsPres s t := by
  intro s n t hWF hm h
  obtain ⟨hok, hbound, hdr_old, hhdr, hwfh⟩ := hWF
  rw [Resize] at h
  rw [newPage_ok s hok] at h
  dsimp only at h
  generalize hPP : allocBlockPages { s with next_page_id := s.next_page_id + 1 }
      { page_id_ := s.next_page_id, size_ := n * 2 / BAS, block_page_ids_ := [] }
      (n * 2 / BAS) = pp at h
  have spec := allocBlockPages_spec (n * 2 / BAS)
      { s with next_page_id := s.next_page_id + 1 }
      { page_id_ := s.next_page_id, size_ := n * 2 / BAS, block_page_ids_ := [] } hok
  rw [hPP] at spec
  obtain ⟨p1, p2, p3, p4, p5, p6, p7, p8, p9⟩ := spec
  have hs1 : ({ s with next_page_id := s.next_page_id + 1 } : HTState).next_page_id
      = s.next_page_id + 1 := rfl
  have hnext3 : (setHeaderPage pp.1 s.next_page_id pp.2).next_page_id
      = s.next_page_id + 1 + (n * 2 / BAS) := by
    show pp.1.next_page_id = _
    rw [p2, hs1]
  have hS3hid : (setHeaderPage pp.1 s.next_page_id pp.2).header_page_id_
      = s.header_page_id_ := by
    show pp.1.header_page_id_ = _
    exact p4
  have hpool3 : (setHeaderPage pp.1 s.next_page_id pp.2).pool_ok = true := by
    show pp.1.pool_ok = true
    rw [p1]
    exact hok
  have hH3cur : (setHeaderPage pp.1 s.next_page_id pp.2).headers s.header_page_id_
      = some hdr_old := by
    rw [setHeaderPage_headers, if_neg (by omega), p3]
    exact hhdr
  have hH3new : (setHeaderPage pp.1 s.next_page_id pp.2).headers s.next_page_id
      = some pp.2 := by
    rw [setHeaderPage_headers, if_pos rfl]
  rw [fetchHeaderPage_ok (setHeaderPage pp.1 s.next_page_id pp.2) _ hpool3] at h
  dsimp only at h
  have hD3 : headerD (setHeaderPage pp.1 s.next_page_id pp.2)
      ((setHeaderPage pp.1 s.next_page_id pp.2).header_page_id_) = hdr_old := by
    rw [hS3hid, headerD, hH3cur]
    rfl
  rw [hD3] at h
  split at h
  · exact Except.noConfusion h
  · rename_i s₄ heq
    rw [Except.ok.injEq] at h
    subst h
    have hwfh3 : WFhdr (setHeaderPage pp.1 s.next_page_id pp.2) hdr_old := by
      refine ⟨hwfh.1, hwfh.2.1, hwfh.2.2.1, ?_, ?_⟩
      · intro pid hpid
        have := hwfh.2.2.2.1 pid hpid
        rw [hnext3]
        omega
      · rw [hS3hid]
        exact hwfh.2.2.2.2
    have hWF3 : WF (setHeaderPage pp.1 s.next_page_id pp.2) :=
      ⟨hpool3, by rw [hS3hid, hnext3]; omega, hdr_old, by rw [hS3hid]; exact hH3cur, hwfh3⟩
    have hDs : headerD s s.header_page_id_ = hdr_old := by
      rw [headerD, hhdr]
      rfl
    have hsS3 : InsPres s (setHeaderPage pp.1 s.next_page_id pp.2) := by
      refine ⟨hWF3, by rw [hnext3]; omega, by rw [hpool3, hok], p5, Or.inl hS3hid, ?_⟩
      intro P hP
      obtain ⟨hPn, hPh, hPids⟩ := hP
      have hPH : (setHeaderPage pp.1 s.next_page_id pp.2).headers P = s.headers P := by
        rw [setHeaderPage_headers, if_neg (by omega), p3]
      have hPB : (setHeaderPage pp.1 s.next_page_id pp.2).blocks P = s.blocks P := by
        show pp.1.blocks P = s.blocks P
        rw [p6 P (by rw [hs1]; omega)]
      refine ⟨⟨by rw [hnext3]; omega, by rw [hS3hid]; exact hPh, ?_⟩, hPH, hPB⟩
      intro q hq
      rw [hD3] at hq
      apply hPids
      rw [hDs]
      exact hq
    have hmpres : InsPres (setHeaderPage pp.1 s.next_page_id pp.2) s₄ :=
      migrateBlocks_pres BAS (insertGo BAS fuel) Hins _ hdr_old hpool3
        (by rw [hS3hid]; exact hH3cur) hwfh3 hdr_old.NumBlocks 0
        (setHeaderPage pp.1 s.next_page_id pp.2) s₄
        (by have := hwfh.1; omega) (InsPres_refl _ hWF3) heq
    have hsS4 : InsPres s s₄ := InsPres_trans _ _ _ hsS3 hmpres
    obtain ⟨hWF4, hle4, hpool4, hhash4, hhid4, hfr4⟩ := hsS4
    have hnext4 : s.next_page_id + 1 + (n * 2 / BAS) ≤ s₄.next_page_id := by
      rw [← hnext3]
      exact hmpres.2.1
    have hProtNew : Pprot (setHeaderPage pp.1 s.next_page_id pp.2) s.next_page_id := by
      refine ⟨by rw [hnext3]; omega, by rw [hS3hid]; omega, ?_⟩
      intro q hq
      rw [hD3] at hq
      have := hwfh.2.2.2.1 q hq
      omega
    obtain ⟨hProt4, hH4new, hB4new⟩ := hmpres.2.2.2.2.2 s.next_page_id hProtNew
    have hH4n : s₄.headers s.next_page_id = some pp.2 := by
      rw [hH4new]
      exact hH3new
    have hOldNe : s₄.header_page_id_ ≠ s.next_page_id := hProt4.2.1
    have hids : pp.2.block_page_ids_ =
        (List.range (n * 2 / BAS)).map (fun i => s.next_page_id + 1 + i) := by
      rw [p9]
      rfl
    refine ⟨⟨?_, ?_, pp.2, ?_, ?_, ?_, ?_, ?_, ?_⟩, ?_, ?_, ?_, ?_, ?_⟩
    · show s₄.pool_ok = true
      rw [hpool4]
      exact hok
    · show s.next_page_id < s₄.next_page_id
      omega
    · show (if s.next_page_id = s₄.header_page_id_ then none
        else s₄.headers s.next_page_id) = some pp.2
      rw [if_neg (fun e => hOldNe e.symm)]
      exact hH4n
    · show pp.2.size_ = pp.2.block_page_ids_.length
      rw [p7, hids]
      simp
    · show 0 < pp.2.size_
      rw [p7]
      exact hm
    · rw [hids]
      exact List.Nodup.map (fun a b hab => by omega) (List.nodup_range _)
    · intro pid hpid
      rw [hids, List.mem_map] at hpid
      obtain ⟨i, hi, rfl⟩ := hpid
      rw [List.mem_range] at hi
      show s.next_page_id + 1 + i < s₄.next_page_id
      omega
    · show s.next_page_id ∉ pp.2.block_page_ids_
      rw [hids]
      intro hmem
      rw [List.mem_map] at hmem
      obtain ⟨i, _, he⟩ := hmem
      omega
    · show s.next_page_id ≤ s₄.next_page_id
      omega
    · show s₄.pool_ok = s.pool_ok
      exact hpool4
    · show s₄.hash_fn_ = s.hash_fn_
      exact hhash4
    · exact Or.inr (Nat.le_refl _)
    · intro P hP
      obtain ⟨hPn, hPh, hPids⟩ := hP
      obtain ⟨hP4, hH4, hB4⟩ := hfr4 P ⟨hPn, hPh, hPids⟩
      have hPneOld : s₄.header_page_id_ ≠ P := by
        rcases hhid4 with e | e
        · rw [e]
          exact hPh
        · omega
      refine ⟨⟨?_, ?_, ?_⟩, ?_, ?_⟩
      · show P < s₄.next_page_id
        have := hP4.1
        omega
      · show s.next_page_id ≠ P
        omega
      · intro q hq
        have hDD : headerD (deletePage { s₄ with header_page_id_ := s.next_page_id }
            s₄.header_page_id_) ((deletePage { s₄ with header_page_id_ := s.next_page_id }
            s₄.header_page_id_).header_page_id_) = pp.2 := by
          rw [headerD]
          show ((if s.next_page_id = s₄.header_page_id_ then none
            else s₄.headers s.next_page_id).getD zeroHeader) = pp.2
          rw [if_neg (fun e => hOldNe e.symm), hH4n]
          rfl
        rw [hDD, hids, List.mem_map] at hq
        obtain ⟨i, _, he⟩ := hq
        omega
      · show (if P = s₄.header_page_id_ then none else s₄.headers P) = s.headers P
        rw [if_neg (fun e => hPneOld e.symm)]
        exact hH4
      · show (if P = s₄.header_page_id_ then none else s₄.blocks P) = s.blocks P
        rw [if_neg (fun e => hPneOld e.symm)]
        exact hB4

theorem Wcluster (BAS : Nat) (hBAS : 0 < BAS) : ∀ fuel,
    (∀ s k v r, WF s → insertGo BAS fuel s k v = .ok r → InsPres s r.1) ∧
    (∀ s hdr index bi bu k v r, WF s → s.headers s.header_page_id_ = some hdr →
      bi < hdr.NumBlocks →
      insertLoop BAS fuel s hdr hdr.NumBlocks index bi bu k v = .ok r → InsPres s r.1) ∧
    (∀ s n t, WF s → 0 < n * 2 / BAS → Resize BAS fuel s n = .ok t → InsPres s t) := by
  intro fuel
  induction fuel with
  | zero =>
    refine ⟨?_, ?_, ?_⟩
    · intro s k v r _ h
      rw [insertGo] at h
      exact Except.noConfusion h
    · intro s hdr index bi bu k v r _ _ _ h
      rw [insertLoop] at h
      exact Except.noConfusion h
    · intro s n t _ _ h
      rw [Resize] at h
      exact Except.noConfusion h
  | succ m ih =>
    obtain ⟨ihGo, ihLoop, ihRes⟩ := ih
    refine ⟨?_, ?_, ?_⟩
    · intro s k v r hWF h
      rw [insertGo] at h
      have hok := hWF.1
      rw [fetchHeaderPage_ok s _ hok] at h
      dsimp only at h
      obtain ⟨hok', hbound, hdr, hhdr, hwfh⟩ := hWF
      have hD : headerD s s.header_page_id_ = hdr := by
        rw [headerD, hhdr]
        rfl
      rw [hD] at h
      have hcap : 0 < BAS * hdr.NumBlocks := Nat.mul_pos hBAS hwfh.2.1
      have hbi : s.hash_fn_ k % (BAS * hdr.NumBlocks) / BAS < hdr.NumBlocks := by
        rw [Nat.div_lt_iff_lt_mul hBAS, Nat.mul_comm hdr.NumBlocks BAS]
        exact Nat.mod_lt _ hcap
      exact ihLoop s hdr _ _ _ k v r ⟨hok', hbound, hdr, hhdr, hwfh⟩ hhdr hbi h
    · intro s hdr index bi bu k v r hWF hhdr hbi h
      rw [insertLoop] at h
      have hok := hWF.1
      rw [fetchBlockPage_ok s _ hok] at h
      dsimp only at h
      obtain ⟨hok', hbound, hdr', hhdr', hwfh'⟩ := hWF
      have hdrEq : hdr' = hdr := by
        rw [hhdr] at hhdr'
        exact (Option.some.injEq _ _ ▸ hhdr').symm
      subst hdrEq
      have hDs : headerD s s.header_page_id_ = hdr' := by
        rw [headerD, hhdr]
        rfl
      split at h
      · rw [Except.ok.injEq] at h
        subst h
        have hmem : hdr'.GetBlockPageId bi ∈ hdr'.block_page_ids_ :=
          getD_mem_of_lt _ bi (by have := hwfh'.1; omega)
        refine ⟨⟨hok', hbound, hdr', hhdr, hwfh'⟩, Nat.le_refl _, rfl, rfl, Or.inl rfl, ?_⟩
        intro P hP
        have hbidP : hdr'.GetBlockPageId bi ≠ P := hP.2.2 _ (by rw [hDs]; exact hmem)
        refine ⟨⟨hP.1, hP.2.1, ?_⟩, rfl, ?_⟩
        · intro q hq
          exact hP.2.2 q hq
        · rw [setBlockPage_blocks, if_neg (fun e => hbidP e.symm)]
      · split at h
        · rw [Except.ok.injEq] at h
          subst h
          exact InsPres_refl s ⟨hok', hbound, hdr', hhdr, hwfh'⟩
        · split at h
          · split at h
            · exact Except.noConfusion h
            · rename_i s' heq
              have hmpos : 0 < hdr'.NumBlocks * BAS * 2 / BAS := by
                have e : hdr'.NumBlocks * BAS * 2 / BAS = hdr'.NumBlocks * 2 := by
                  rw [show hdr'.NumBlocks * BAS * 2 = BAS * (hdr'.NumBlocks * 2) by ring]
                  exact Nat.mul_div_cancel_left _ hBAS
                rw [e]
                have := hwfh'.2.1
                omega
              have h1 : InsPres s s' :=
                ihRes s (hdr'.NumBlocks * BAS) s' ⟨hok', hbound, hdr', hhdr, hwfh'⟩ hmpos heq
              exact InsPres_trans _ _ _ h1 (ihGo s' k v r h1.1 h)
          · split at h
            · exact ihLoop s hdr' index _ 0 k v r ⟨hok', hbound, hdr', hhdr, hwfh'⟩ hhdr
                (Nat.mod_lt _ hwfh'.2.1) h
            · exact ihLoop s hdr' index bi (bu + 1) k v r ⟨hok', hbound, hdr', hhdr, hwfh'⟩
                hhdr hbi h
    · intro s n t hWF hm h
      exact Resize_pres_step BAS m ihGo s n t hWF hm h

theorem slot_frame_setBlock (BAS : Nat) (s : HTState) (hdr : HeaderPage)
    (hBAS : 0 < BAS)
    (hlen : hdr.NumBlocks = hdr.block_page_ids_.length) (hnd : hdr.block_page_ids_.Nodup)
    (p p' : Nat) (hp : p < BAS * hdr.NumBlocks) (hp' : p' < BAS * hdr.NumBlocks)
    (hne : p ≠ p') (b' : BlockPage)
    (hagree : ∀ j, j ≠ p' % BAS →
      b'.IsReadable j = (blockD s (hdr.GetBlockPageId (p' / BAS))).IsReadable j ∧
      b'.KeyAt j = (blockD s (hdr.GetBlockPageId (p' / BAS))).KeyAt j ∧
      b'.ValueAt j = (blockD s (hdr.GetBlockPageId (p' / BAS))).ValueAt j) :
    readAt BAS (setBlockPage s (hdr.GetBlockPageId (p' / BAS)) b') hdr p
        = readAt BAS s hdr p ∧
    keyAt BAS (setBlockPage s (hdr.GetBlockPageId (p' / BAS)) b') hdr p
        = keyAt BAS s hdr p ∧
    valAt BAS (setBlockPage s (hdr.GetBlockPageId (p' / BAS)) b') hdr p
        = valAt BAS s hdr p := by
  by_cases hdiv : p / BAS = p' / BAS
  · have hmod : p % BAS ≠ p' % BAS := by
      intro e
      apply hne
      conv_lhs => rw [← Nat.div_add_mod p BAS]
      conv_rhs => rw [← Nat.div_add_mod p' BAS]
      rw [hdiv, e]
    refine ⟨?_, ?_, ?_⟩
    · unfold readAt slotBlock
      rw [hdiv, blockD_setBlock_self]
      exact (hagree _ hmod).1
    · unfold keyAt slotBlock
      rw [hdiv, blockD_setBlock_self]
      exact (hagree _ hmod).2.1
    · unfold valAt slotBlock
      rw [hdiv, blockD_setBlock_self]
      exact (hagree _ hmod).2.2
  · have hdlt : p / BAS < hdr.block_page_ids_.length := by
      rw [← hlen, Nat.div_lt_iff_lt_mul hBAS, Nat.mul_comm hdr.NumBlocks BAS]
      exact hp
    have hdlt' : p' / BAS < hdr.block_page_ids_.length := by
      rw [← hlen, Nat.div_lt_iff_lt_mul hBAS, Nat.mul_comm hdr.NumBlocks BAS]
      exact hp'
    have hbidne : hdr.GetBlockPageId (p / BAS) ≠ hdr.GetBlockPageId (p' / BAS) := by
      intro e
      exact hdiv (nodup_getD_inj _ hnd _ _ hdlt hdlt' e)
    refine ⟨?_, ?_, ?_⟩
    · unfold readAt slotBlock
      rw [blockD_setBlock_other _ _ _ _ hbidne]
    · unfold keyAt slotBlock
      rw [blockD_setBlock_other _ _ _ _ hbidne]
    · unfold valAt slotBlock
      rw [blockD_setBlock_other _ _ _ _ hbidne]

theorem insertSuccess_cluster (BAS : Nat) (hBAS : 0 < BAS) : ∀ fuel,
    (∀ s k v s₂, WF s → insertGo BAS fuel s k v = .ok (s₂, true) →
      SecondInsertRejects BAS s₂ k v) ∧
    (∀ s hdr T bi bu k v s₂, WF s → s.headers s.header_page_id_ = some hdr →
      bi < hdr.NumBlocks → bu < BAS →
      bi * BAS + bu = probePos (BAS * hdr.NumBlocks)
        (s.hash_fn_ k % (BAS * hdr.NumBlocks)) T →
      (∀ j, j < T →
        readAt BAS s hdr (probePos (BAS * hdr.NumBlocks)
          (s.hash_fn_ k % (BAS * hdr.NumBlocks)) j) = true ∧
        ¬(keyAt BAS s hdr (probePos (BAS * hdr.NumBlocks)
            (s.hash_fn_ k % (BAS * hdr.NumBlocks)) j) = k ∧
          valAt BAS s hdr (probePos (BAS * hdr.NumBlocks)
            (s.hash_fn_ k % (BAS * hdr.NumBlocks)) j) = v)) →
      insertLoop BAS fuel s hdr hdr.NumBlocks
        (s.hash_fn_ k % (BAS * hdr.NumBlocks)) bi bu k v = .ok (s₂, true) →
      SecondInsertRejects BAS s₂ k v) := by
  intro fuel
  induction fuel with
  | zero =>
    constructor
    · intro s k v s₂ _ h
      rw [insertGo] at h
      exact Except.noConfusion h
    · intro s hdr T bi bu k v s₂ _ _ _ _ _ _ h
      rw [insertLoop] at h
      exact Except.noConfusion h
  | succ m ih =>
    obtain ⟨ihGo, ihLoop⟩ := ih
    constructor
    · intro s k v s₂ hWF h
      rw [insertGo] at h
      have hok := hWF.1
      rw [fetchHeaderPage_ok s _ hok] at h
      dsimp only at h
      obtain ⟨hok', hbound, hdr, hhdr, hwfh⟩ := hWF
      have hD : headerD s s.header_page_id_ = hdr := by
        rw [headerD, hhdr]
        rfl
      rw [hD] at h
      have hcap : 0 < BAS * hdr.NumBlocks := Nat.mul_pos hBAS hwfh.2.1
      have hidx : s.hash_fn_ k % (BAS * hdr.NumBlocks) < BAS * hdr.NumBlocks :=
        Nat.mod_lt _ hcap
      have hbi : s.hash_fn_ k % (BAS * hdr.NumBlocks) / BAS < hdr.NumBlocks := by
        rw [Nat.div_lt_iff_lt_mul hBAS, Nat.mul_comm hdr.NumBlocks BAS]
        exact hidx
      have hp : (s.hash_fn_ k % (BAS * hdr.NumBlocks) / BAS) * BAS +
          s.hash_fn_ k % (BAS * hdr.NumBlocks) % BAS =
          probePos (BAS * hdr.NumBlocks) (s.hash_fn_ k % (BAS * hdr.NumBlocks)) 0 := by
        rw [probePos_zero _ _ hidx, Nat.mul_comm, Nat.div_add_mod]
      exact ihLoop s hdr 0 _ _ k v s₂ ⟨hok', hbound, hdr, hhdr, hwfh⟩ hhdr hbi
        (Nat.mod_lt _ hBAS) hp (fun j hj => absurd hj (Nat.not_lt_zero j)) h
    · intro s hdr T bi bu k v s₂ hWF hhdr hbi hbu hp run h
      rw [insertLoop] at h
      have hok := hWF.1
      rw [fetchBlockPage_ok s _ hok] at h
      dsimp only at h
      obtain ⟨hok', hbound, hdr', hhdr', hwfh'⟩ := hWF
      have hdrEq : hdr' = hdr := by
        rw [hhdr] at hhdr'
        exact (Option.some.injEq _ _ ▸ hhdr').symm
      subst hdrEq
      have hlen : 0 < hdr'.NumBlocks := hwfh'.2.1
      have hcap : 0 < BAS * hdr'.NumBlocks := Nat.mul_pos hBAS hlen
      split at h
      · rename_i hc
        simp only [Except.ok.injEq, Prod.mk.injEq, and_true] at h
        subst h
        have hrd : (blockD s (hdr'.GetBlockPageId bi)).IsReadable bu = false :=
          blockInsert_snd_true _ _ _ _ hc
        have hTcap : T < BAS * hdr'.NumBlocks := by
          by_contra hTc
          rw [Nat.not_lt] at hTc
          have hpos : 0 < T := by omega
          have hRT : readAt BAS s hdr' (probePos (BAS * hdr'.NumBlocks)
              (s.hash_fn_ k % (BAS * hdr'.NumBlocks)) T) = true := by
            rw [probePos_mod]
            exact (run _ (by have := Nat.mod_lt T hcap; omega)).1
          rw [readAt_eq BAS s hdr' bi bu _ hBAS hbu hp, hrd] at hRT
          exact Bool.noConfusion hRT
        obtain ⟨hdivT, hmodT⟩ := posDivMod BAS bi bu _ hBAS hbu hp
        have hagree : ∀ j', j' ≠ (probePos (BAS * hdr'.NumBlocks)
            (s.hash_fn_ k % (BAS * hdr'.NumBlocks)) T) % BAS →
            (((blockD s (hdr'.GetBlockPageId bi)).Insert bu k v).1).IsReadable j' =
              (blockD s (hdr'.GetBlockPageId ((probePos (BAS * hdr'.NumBlocks)
                (s.hash_fn_ k % (BAS * hdr'.NumBlocks)) T) / BAS))).IsReadable j' ∧
            (((blockD s (hdr'.GetBlockPageId bi)).Insert bu k v).1).KeyAt j' =
              (blockD s (hdr'.GetBlockPageId ((probePos (BAS * hdr'.NumBlocks)
                (s.hash_fn_ k % (BAS * hdr'.NumBlocks)) T) / BAS))).KeyAt j' ∧
            (((blockD s (hdr'.GetBlockPageId bi)).Insert bu k v).1).ValueAt j' =
              (blockD s (hdr'.GetBlockPageId ((probePos (BAS * hdr'.NumBlocks)
                (s.hash_fn_ k % (BAS * hdr'.NumBlocks)) T) / BAS))).ValueAt j' := by
          intro j' hj'
          rw [hmodT] at hj'
          rw [hdivT]
          exact blockInsert_other _ bu k v j' hj'
        have run₂ : ∀ j, j < T →
            readAt BAS (setBlockPage s (hdr'.GetBlockPageId bi)
                ((blockD s (hdr'.GetBlockPageId bi)).Insert bu k v).1) hdr'
              (probePos (BAS * hdr'.NumBlocks)
                (s.hash_fn_ k % (BAS * hdr'.NumBlocks)) j) = true ∧
            ¬(keyAt BAS (setBlockPage s (hdr'.GetBlockPageId bi)
                ((blockD s (hdr'.GetBlockPageId bi)).Insert bu k v).1) hdr'
                (probePos (BAS * hdr'.NumBlocks)
                  (s.hash_fn_ k % (BAS * hdr'.NumBlocks)) j) = k ∧
              valAt BAS (setBlockPage s (hdr'.GetBlockPageId bi)
                ((blockD s (hdr'.GetBlockPageId bi)).Insert bu k v).1) hdr'
                (probePos (BAS * hdr'.NumBlocks)
                  (s.hash_fn_ k % (BAS * hdr'.NumBlocks)) j) = v) := by
          intro j hj
          have hppj : probePos (BAS * hdr'.NumBlocks)
              (s.hash_fn_ k % (BAS * hdr'.NumBlocks)) j ≠
              probePos (BAS * hdr'.NumBlocks)
                (s.hash_fn_ k % (BAS * hdr'.NumBlocks)) T := by
            intro e
            have := probePos_inj _ _ j T (by omega) hTcap e
            omega
          have hfr := slot_frame_setBlock BAS s hdr' hBAS hwfh'.1 hwfh'.2.2.1
            (probePos (BAS * hdr'.NumBlocks) (s.hash_fn_ k % (BAS * hdr'.NumBlocks)) j)
            (probePos (BAS * hdr'.NumBlocks) (s.hash_fn_ k % (BAS * hdr'.NumBlocks)) T)
            (probePos_lt _ _ _ hcap) (probePos_lt _ _ _ hcap) hppj
            ((blockD s (hdr'.GetBlockPageId bi)).Insert bu k v).1 hagree
          rw [hdivT] at hfr
          obtain ⟨f1, f2, f3⟩ := hfr
          obtain ⟨r1, r2⟩ := run j hj
          refine ⟨by rw [f1]; exact r1, ?_⟩
          intro he
          exact r2 ⟨by rw [← f2]; exact he.1, by rw [← f3]; exact he.2⟩
        have dupR₂ : readAt BAS (setBlockPage s (hdr'.GetBlockPageId bi)
            ((blockD s (hdr'.GetBlockPageId bi)).Insert bu k v).1) hdr'
            (probePos (BAS * hdr'.NumBlocks)
              (s.hash_fn_ k % (BAS * hdr'.NumBlocks)) T) = true := by
          rw [readAt_eq _ _ _ bi bu _ hBAS hbu hp, blockD_setBlock_self]
          exact (blockInsert_self _ _ _ _ hrd).1
        have dupK₂ : keyAt BAS (setBlockPage s (hdr'.GetBlockPageId bi)
            ((blockD s (hdr'.GetBlockPageId bi)).Insert bu k v).1) hdr'
            (probePos (BAS * hdr'.NumBlocks)
              (s.hash_fn_ k % (BAS * hdr'.NumBlocks)) T) = k := by
          rw [keyAt_eq _ _ _ bi bu _ hBAS hbu hp, blockD_setBlock_self]
          exact (blockInsert_self _ _ _ _ hrd).2.1
        have dupV₂ : valAt BAS (setBlockPage s (hdr'.GetBlockPageId bi)
            ((blockD s (hdr'.GetBlockPageId bi)).Insert bu k v).1) hdr'
            (probePos (BAS * hdr'.NumBlocks)
              (s.hash_fn_ k % (BAS * hdr'.NumBlocks)) T) = v := by
          rw [valAt_eq _ _ _ bi bu _ hBAS hbu hp, blockD_setBlock_self]
          exact (blockInsert_self _ _ _ _ hrd).2.2
        exact ⟨hdr', hhdr, T, hTcap, ⟨dupR₂, dupK₂, dupV₂⟩,
          dupFound_go BAS _ hdr' k v T hBAS hok hhdr hlen hTcap run₂ dupR₂ dupK₂ dupV₂⟩
      · rename_i hc
        split at h
        · simp at h
        · rename_i hnkv
          have hcf : ((blockD s (hdr'.GetBlockPageId bi)).Insert bu k v).2 = false := by
            cases hx : ((blockD s (hdr'.GetBlockPageId bi)).Insert bu k v).2
            · rfl
            · exact absurd hx hc
          have hrd : (blockD s (hdr'.GetBlockPageId bi)).IsReadable bu = true :=
            blockInsert_snd_false _ _ _ _ hcf
          have hkv : ¬((blockD s (hdr'.GetBlockPageId bi)).KeyAt bu = k ∧
              (blockD s (hdr'.GetBlockPageId bi)).ValueAt bu = v) := by
            simp only [Bool.and_eq_true, beq_iff_eq] at hnkv
            exact fun he => hnkv ⟨he.1, he.2⟩
          have curR : readAt BAS s hdr' (probePos (BAS * hdr'.NumBlocks)
              (s.hash_fn_ k % (BAS * hdr'.NumBlocks)) T) = true := by
            rw [readAt_eq BAS s hdr' bi bu _ hBAS hbu hp]
            exact hrd
          have curKV : ¬(keyAt BAS s hdr' (probePos (BAS * hdr'.NumBlocks)
              (s.hash_fn_ k % (BAS * hdr'.NumBlocks)) T) = k ∧
              valAt BAS s hdr' (probePos (BAS * hdr'.NumBlocks)
                (s.hash_fn_ k % (BAS * hdr'.NumBlocks)) T) = v) := by
            rw [keyAt_eq BAS s hdr' bi bu _ hBAS hbu hp,
              valAt_eq BAS s hdr' bi bu _ hBAS hbu hp]
            exact hkv
          have run' : ∀ j, j < T + 1 →
              readAt BAS s hdr' (probePos (BAS * hdr'.NumBlocks)
                (s.hash_fn_ k % (BAS * hdr'.NumBlocks)) j) = true ∧
              ¬(keyAt BAS s hdr' (probePos (BAS * hdr'.NumBlocks)
                  (s.hash_fn_ k % (BAS * hdr'.NumBlocks)) j) = k ∧
                valAt BAS s hdr' (probePos (BAS * hdr'.NumBlocks)
                  (s.hash_fn_ k % (BAS * hdr'.NumBlocks)) j) = v) := by
            intro j hj
            rcases Nat.lt_or_ge j T with hlt | hge
            · exact run j hlt
            · have he : j = T := by omega
              subst he
              exact ⟨curR, curKV⟩
          have hsucc := probePos_succ (BAS * hdr'.NumBlocks)
            (s.hash_fn_ k % (BAS * hdr'.NumBlocks)) T
          split at h
          · split at h
            · exact Except.noConfusion h
            · rename_i s' heq
              have hmpos : 0 < hdr'.NumBlocks * BAS * 2 / BAS := by
                have e : hdr'.NumBlocks * BAS * 2 / BAS = hdr'.NumBlocks * 2 := by
                  rw [show hdr'.NumBlocks * BAS * 2 = BAS * (hdr'.NumBlocks * 2) by ring]
                  exact Nat.mul_div_cancel_left _ hBAS
                rw [e]
                omega
              have h1 : InsPres s s' :=
                (Wcluster BAS hBAS m).2.2 s (hdr'.NumBlocks * BAS) s'
                  ⟨hok', hbound, hdr', hhdr, hwfh'⟩ hmpos heq
              exact ihGo s' k v s₂ h1.1 h
          · split at h
            · rename_i hsw
              rw [beq_iff_eq] at hsw
              have hp' : ((bi + 1) % hdr'.NumBlocks) * BAS + 0 =
                  probePos (BAS * hdr'.NumBlocks)
                    (s.hash_fn_ k % (BAS * hdr'.NumBlocks)) (T + 1) := by
                rw [hsucc, ← hp]
                have e2 : bi * BAS + bu + 1 = BAS * (bi + 1) := by
                  rw [Nat.mul_add, Nat.mul_one, Nat.mul_comm BAS bi]
                  omega
                rw [e2, Nat.mul_mod_mul_left BAS (bi + 1) hdr'.NumBlocks, Nat.add_zero,
                  Nat.mul_comm]
              exact ihLoop s hdr' (T + 1) ((bi + 1) % hdr'.NumBlocks) 0 k v s₂
                ⟨hok', hbound, hdr', hhdr, hwfh'⟩ hhdr (Nat.mod_lt _ hlen) hBAS hp' run' h
            · rename_i hsw
              rw [Bool.not_eq_true, beq_eq_false_iff_ne] at hsw
              have hp' : bi * BAS + (bu + 1) = probePos (BAS * hdr'.NumBlocks)
                  (s.hash_fn_ k % (BAS * hdr'.NumBlocks)) (T + 1) := by
                rw [hsucc, ← hp]
                have h3 : (bi + 1) * BAS ≤ hdr'.NumBlocks * BAS :=
                  Nat.mul_le_mul_right BAS (by omega)
                have h4 : (bi + 1) * BAS = bi * BAS + BAS := by
                  rw [Nat.add_mul, Nat.one_mul]
                rw [Nat.mod_eq_of_lt (by rw [Nat.mul_comm BAS hdr'.NumBlocks]; omega)]
                omega
              exact ihLoop s hdr' (T + 1) bi (bu + 1) k v s₂
                ⟨hok', hbound, hdr', hhdr, hwfh'⟩ hhdr hbi (by omega) hp' run' h

/-- C3 (amended claim): for every key and value, (a) if a readable slot
holding exactly (key, value) lies at step `d` of the probe run starting at
`hash(key) % capacity` and every earlier step of the run is readable (not
insertable) and does not hold the pair, then Insert returns false and the
state is unchanged; and (b) after any Insert that returns true, some probe
step of the resulting state holds the pair readable, and a second Insert
of the identical pair returns false leaving the state unchanged.  The
original claim's "exactly one readable slot" and its unconditional
duplicate rejection are refuted by `C3_counterexample`. -/
theorem C3_insert_duplicate_spec (BAS : Nat) (s : HTState) (hdr : HeaderPage) (k v : Nat)
    (hBAS : 0 < BAS) (hWF : WF s) (hhdr : s.headers s.header_page_id_ = some hdr) :
    (∀ d, d < BAS * hdr.NumBlocks →
      (∀ j, j < d →
        readAt BAS s hdr (probePos (BAS * hdr.NumBlocks)
          (s.hash_fn_ k % (BAS * hdr.NumBlocks)) j) = true ∧
        ¬(keyAt BAS s hdr (probePos (BAS * hdr.NumBlocks)
            (s.hash_fn_ k % (BAS * hdr.NumBlocks)) j) = k ∧
          valAt BAS s hdr (probePos (BAS * hdr.NumBlocks)
            (s.hash_fn_ k % (BAS * hdr.NumBlocks)) j) = v)) →
      readAt BAS s hdr (probePos (BAS * hdr.NumBlocks)
        (s.hash_fn_ k % (BAS * hdr.NumBlocks)) d) = true →
      keyAt BAS s hdr (probePos (BAS * hdr.NumBlocks)
        (s.hash_fn_ k % (BAS * hdr.NumBlocks)) d) = k →
      valAt BAS s hdr (probePos (BAS * hdr.NumBlocks)
        (s.hash_fn_ k % (BAS * hdr.NumBlocks)) d) = v →
      ∀ fuel, d + 2 ≤ fuel → insertGo BAS fuel s k v = .ok (s, false)) ∧
    (∀ fuel s₂, insertGo BAS fuel s k v = .ok (s₂, true) →
      SecondInsertRejects BAS s₂ k v) := by
  constructor
  · intro d hd run dupR dupK dupV fuel hfuel
    obtain ⟨hok, hb, hdr'', hh'', hw''⟩ := hWF
    have hdrEq : hdr'' = hdr := by
      rw [hhdr] at hh''
      exact (Option.some.injEq _ _ ▸ hh'').symm
    subst hdrEq
    exact dupFound_go BAS s hdr'' k v d hBAS hok hhdr hw''.2.1 hd run dupR dupK dupV fuel hfuel
  · intro fuel s₂ h
    exact (insertSuccess_cluster BAS hBAS fuel).1 s k v s₂ hWF h

/-- Witness for C3: in the one-block table holding exactly (0, 5) readable
at slot 0 (identity hash, BAS = 4), the duplicate lies at probe step 0
with no preceding step, and Insert(0, 5) returns false leaving the state
unchanged. -/
theorem C3_insert_duplicate_spec_witness :
    ((0 : Nat) < 4 ∧ WF exStateW ∧
      exStateW.headers exStateW.header_page_id_ = some exHeader1) ∧
    insertGo 4 5 exStateW 0 5 = .ok (exStateW, false) := by
  have hWFw : WF exStateW :=
    ⟨rfl, by decide, exHeader1, rfl,
      ⟨rfl, by decide, by decide, by decide, by decide⟩⟩
  refine ⟨⟨by decide, hWFw, rfl⟩, ?_⟩
  exact (C3_insert_duplicate_spec 4 exStateW exHeader1 0 5 (by decide) hWFw rfl).1 0
    (by decide) (fun j hj => absurd hj (by omega)) rfl rfl rfl 5 (by decide)
